import Mathlib

/-!
Verification development for the Peloton host-manager offer pool and
related job-manager task paths.

The placement-model and status-update code present in the repository is
embedded directly.  The offer-pool / host-summary / matcher implementation
itself is not present in the sources (only its test suite is), so those
operations are modelled from the specification, as marked in the doc
comments of the corresponding definitions.
-/

namespace Peloton

/-! ## Association-list maps

The pool keeps three string-keyed maps (`hostIndex`, `timedOffers`,
`heldIndex`).  They are modelled as association lists with unique keys,
mirroring the map semantics of the Go implementation. -/

/-- First-match lookup in an association list. -/
def lookupA {β : Type} : List (String × β) → String → Option β
  | [], _ => none
  | e :: l, k => if e.1 = k then some e.2 else lookupA l k

/-- Remove every entry with the given key. -/
def eraseKeyA {β : Type} : List (String × β) → String → List (String × β)
  | [], _ => []
  | e :: l, k => if e.1 = k then eraseKeyA l k else e :: eraseKeyA l k

/-- Replace the value of every entry with the given key, keeping list order. -/
def setKeyA {β : Type} : List (String × β) → String → β → List (String × β)
  | [], _, _ => []
  | e :: l, k, v => if e.1 = k then (k, v) :: setKeyA l k v else e :: setKeyA l k v

/-- Insert-or-update: update in place when the key is present, append otherwise. -/
def upsertA {β : Type} (l : List (String × β)) (k : String) (v : β) : List (String × β) :=
  if (lookupA l k).isSome then setKeyA l k v else l ++ [(k, v)]

/-- Keys of an association list. -/
def keysA {β : Type} (l : List (String × β)) : List String :=
  l.map Prod.fst

@[simp] theorem lookupA_nil {β : Type} (k : String) : lookupA ([] : List (String × β)) k = none :=
  rfl

@[simp] theorem lookupA_cons {β : Type} (e : String × β) (l : List (String × β)) (k : String) :
    lookupA (e :: l) k = if e.1 = k then some e.2 else lookupA l k := rfl

theorem lookupA_eraseKeyA {β : Type} (l : List (String × β)) (k k' : String) :
    lookupA (eraseKeyA l k) k' = if k' = k then none else lookupA l k' := by
  induction l with
  | nil => simp [eraseKeyA]
  | cons e l ih =>
    by_cases he : e.1 = k
    · by_cases hk : k' = k
      · subst hk; simp [eraseKeyA, he, ih]
      · have hek : e.1 ≠ k' := fun h => hk (by rw [← h, he])
        simp [eraseKeyA, he, hk, hek, ih, show k ≠ k' from fun h => hk h.symm]
    · by_cases hek : e.1 = k'
      · have hk : k' ≠ k := fun h => he (by rw [hek, h])
        simp [eraseKeyA, he, hek, hk]
      · by_cases hk : k' = k
        · subst hk; simp [eraseKeyA, he, hek, ih]
        · simp [eraseKeyA, he, hek, hk, ih]

theorem lookupA_setKeyA {β : Type} (l : List (String × β)) (k k' : String) (v : β) :
    lookupA (setKeyA l k v) k' =
      if k' = k then (if (lookupA l k).isSome then some v else none)
      else lookupA l k' := by
  induction l with
  | nil => by_cases hk : k' = k <;> simp [setKeyA, hk]
  | cons e l ih =>
    by_cases he : e.1 = k
    · by_cases hk : k' = k
      · subst hk; simp [setKeyA, he, ih]
      · have hek : e.1 ≠ k' := fun h => hk (by rw [← h, he])
        have hkk : k ≠ k' := fun h => hk h.symm
        simp [setKeyA, he, hek, hkk, hk, ih]
    · by_cases hek : e.1 = k'
      · have hk : k' ≠ k := fun h => he (by rw [hek, h])
        simp [setKeyA, he, hek, hk]
      · by_cases hk : k' = k
        · subst hk; simp [setKeyA, he, hek, ih]
        · simp [setKeyA, he, hek, hk, ih]

theorem lookupA_append_single {β : Type} (l : List (String × β)) (k k' : String) (v : β)
    (hnone : lookupA l k = none) :
    lookupA (l ++ [(k, v)]) k' = if k' = k then some v else lookupA l k' := by
  induction l with
  | nil =>
    by_cases hk : k' = k
    · subst hk; simp
    · simp only [List.nil_append, lookupA_cons, lookupA_nil, if_neg hk]
      rw [if_neg (fun h => hk h.symm)]
  | cons e l ih =>
    simp only [lookupA_cons] at hnone
    by_cases he : e.1 = k
    · simp [he] at hnone
    · simp only [List.cons_append, lookupA_cons]
      by_cases hek : e.1 = k'
      · have hk : k' ≠ k := fun h => he (by rw [hek, h])
        simp [hek, hk]
      · simp [hek, ih (by simpa [he] using hnone)]

theorem lookupA_upsertA {β : Type} (l : List (String × β)) (k k' : String) (v : β) :
    lookupA (upsertA l k v) k' = if k' = k then some v else lookupA l k' := by
  unfold upsertA
  by_cases hs : (lookupA l k).isSome
  · rw [if_pos hs, lookupA_setKeyA]
    by_cases hk : k' = k <;> simp [hk, hs]
  · rw [if_neg hs]
    exact lookupA_append_single l k k' v (Option.not_isSome_iff_eq_none.mp hs)

@[simp] theorem keysA_setKeyA {β : Type} (l : List (String × β)) (k : String) (v : β) :
    keysA (setKeyA l k v) = keysA l := by
  induction l with
  | nil => rfl
  | cons e l ih =>
    by_cases he : e.1 = k
    · simp only [keysA] at ih
      simp [setKeyA, he, keysA, ih]
    · simp only [keysA] at ih
      simp only [setKeyA, if_neg he, keysA, List.map_cons, ih]

/-! ## Placement models: available port count

Embedded from `GetAvailablePortCount` in pkg/placement/models/hostoffers.go. -/

namespace Placement

/-- A Mesos value range with uint64 endpoints, as consumed by
`GetAvailablePortCount`. -/
structure ValueRange where
  rangeBegin : Nat
  rangeEnd : Nat
deriving DecidableEq

/-- A Mesos resource: a name and (for "ports") a list of value ranges.
`GetRanges().GetRange()` is nil-safe in Go; a resource without ranges is the
empty list. -/
structure MesosResource where
  name : String
  ranges : List ValueRange
deriving DecidableEq

/-- The host offer held by a placement host; `GetResources` on a nil offer
returns the empty list. -/
structure HostOffer where
  resources : List MesosResource
deriving DecidableEq

/-- `HostOffers` from pkg/placement/models/hostoffers.go (the fields not read
by `GetAvailablePortCount` are omitted).  `offer` may be nil. -/
structure HostOffers where
  offer : Option HostOffer
deriving DecidableEq

/-- `host.GetOffer().GetResources()`: nil-safe resource list. -/
def HostOffers.getResources (h : HostOffers) : List MesosResource :=
  match h.offer with
  | none => []
  | some o => o.resources

/-- 2^64, the modulus of Go's uint64 arithmetic. -/
def u64 : Nat := 2 ^ 64

/-- `GetAvailablePortCount` from pkg/placement/models/hostoffers.go:78-91:
for every resource named "ports", accumulate
`ports += portRange.GetEnd() - portRange.GetBegin() + 1` in uint64
arithmetic. -/
def HostOffers.getAvailablePortCount (h : HostOffers) : Nat :=
  h.getResources.foldl
    (fun ports r =>
      if r.name = "ports" then
        r.ranges.foldl
          (fun p pr => (p + (pr.rangeEnd + u64 - pr.rangeBegin + 1)) % u64) ports
      else ports)
    0

/-- The port count as the specification describes it: the sum, over all
resources named "ports", of (End − Begin + 1) across their port ranges,
both endpoints inclusive; other resources contribute nothing. -/
def claimedPortCount (h : HostOffers) : Nat :=
  ((h.getResources.filter (fun r => decide (r.name = "ports"))).map
    (fun r => (r.ranges.map (fun pr => pr.rangeEnd + 1 - pr.rangeBegin)).sum)).sum

theorem rangeFold_eq_sum (rs : List ValueRange) (acc : Nat)
    (hwf : ∀ pr ∈ rs, pr.rangeBegin ≤ pr.rangeEnd ∧ pr.rangeEnd < u64)
    (hacc : acc + (rs.map (fun pr => pr.rangeEnd + 1 - pr.rangeBegin)).sum < u64) :
    rs.foldl (fun p pr => (p + (pr.rangeEnd + u64 - pr.rangeBegin + 1)) % u64) acc =
      acc + (rs.map (fun pr => pr.rangeEnd + 1 - pr.rangeBegin)).sum := by
  induction rs generalizing acc with
  | nil => simp
  | cons pr rs ih =>
    have hpr := hwf pr (by simp)
    have hstep : (acc + (pr.rangeEnd + u64 - pr.rangeBegin + 1)) % u64 =
        acc + (pr.rangeEnd + 1 - pr.rangeBegin) := by
      have h1 : acc + (pr.rangeEnd + u64 - pr.rangeBegin + 1) =
          (acc + (pr.rangeEnd + 1 - pr.rangeBegin)) + u64 := by
        omega
      rw [h1, Nat.add_mod_right]
      apply Nat.mod_eq_of_lt
      simp only [List.map_cons, List.sum_cons] at hacc
      omega
    simp only [List.foldl_cons, hstep, List.map_cons, List.sum_cons]
    rw [ih (acc + (pr.rangeEnd + 1 - pr.rangeBegin))
        (fun q hq => hwf q (by simp [hq]))]
    · omega
    · simp only [List.map_cons, List.sum_cons] at hacc
      omega

theorem resourceFold_eq_sum (rs : List MesosResource) (acc : Nat)
    (hwf : ∀ r ∈ rs, ∀ pr ∈ r.ranges, pr.rangeBegin ≤ pr.rangeEnd ∧ pr.rangeEnd < u64)
    (hacc : acc + ((rs.filter (fun r => decide (r.name = "ports"))).map
      (fun r => (r.ranges.map (fun pr => pr.rangeEnd + 1 - pr.rangeBegin)).sum)).sum < u64) :
    rs.foldl
      (fun ports r =>
        if r.name = "ports" then
          r.ranges.foldl
            (fun p pr => (p + (pr.rangeEnd + u64 - pr.rangeBegin + 1)) % u64) ports
        else ports) acc =
      acc + ((rs.filter (fun r => decide (r.name = "ports"))).map
        (fun r => (r.ranges.map (fun pr => pr.rangeEnd + 1 - pr.rangeBegin)).sum)).sum := by
  induction rs generalizing acc with
  | nil => simp
  | cons r rs ih =>
    by_cases hn : r.name = "ports"
    · have hf : List.filter (fun r => decide (r.name = "ports")) (r :: rs) =
          r :: List.filter (fun r => decide (r.name = "ports")) rs := by
        simp [List.filter_cons, hn]
      rw [hf] at hacc ⊢
      simp only [List.foldl_cons, if_pos hn, List.map_cons, List.sum_cons] at hacc ⊢
      rw [rangeFold_eq_sum r.ranges acc (hwf r (by simp)) (by omega)]
      rw [ih _ (fun q hq => hwf q (by simp [hq])) (by omega)]
      omega
    · have hf : List.filter (fun r => decide (r.name = "ports")) (r :: rs) =
          List.filter (fun r => decide (r.name = "ports")) rs := by
        simp [List.filter_cons, hn]
      rw [hf] at hacc ⊢
      simp only [List.foldl_cons, if_neg hn] at hacc ⊢
      exact ih acc (fun q hq => hwf q (by simp [hq])) hacc

end Placement

/-! ## Job manager task-control path (kill / executor shutdown) -/

namespace JobmgrTask

/-- Error kinds surfaced by the outbound task-control path. -/
inductive TaskCtrlError
  | resourceExhausted
  | respError (msg : String)
deriving DecidableEq

/-- The `KillTasksResponse` error payload as exercised by
pkg/jobmgr/task/util_test.go. -/
structure KillTasksResponse where
  invalidTaskIDs : Option String
  killFailure : Option String
deriving DecidableEq

/-- The `ShutdownExecutorsResponse` error payload as exercised by
pkg/jobmgr/task/util_test.go. -/
structure ShutdownExecutorsResponse where
  invalidExecutors : Option String
  shutdownFailure : Option String
deriving DecidableEq

/-- Modelled from the spec: `KillTask` in pkg/jobmgr/task/util.go is not in
the sources (only its tests are).  A task-kill carries a token-bucket
limiter; `none` models a nil limiter and `some b` a limiter whose Allow()
returns `b`.  Exhausted tokens produce `ResourceExhausted` and the KillTasks
RPC is not issued; otherwise the RPC is issued and response errors are
surfaced.  Returns (whether the RPC was issued, the error if any). -/
def KillTask (limiter : Option Bool) (resp : KillTasksResponse) :
    Bool × Option TaskCtrlError :=
  match limiter with
  | some false => (false, some .resourceExhausted)
  | _ =>
    match resp.invalidTaskIDs with
    | some m => (true, some (.respError m))
    | none =>
      match resp.killFailure with
      | some m => (true, some (.respError m))
      | none => (true, none)

/-- Modelled from the spec: `ShutdownMesosExecutor` in
pkg/jobmgr/task/util.go is not in the sources (only its tests are).  Same
rate-limiter contract as `KillTask`, issuing the ShutdownExecutors RPC. -/
def ShutdownMesosExecutor (limiter : Option Bool) (resp : ShutdownExecutorsResponse) :
    Bool × Option TaskCtrlError :=
  match limiter with
  | some false => (false, some .resourceExhausted)
  | _ =>
    match resp.invalidExecutors with
    | some m => (true, some (.respError m))
    | none =>
      match resp.shutdownFailure with
      | some m => (true, some (.respError m))
      | none => (true, none)

end JobmgrTask

/-! ## Job manager status-update pipeline (orphan-task handling)

Embedded from `ProcessStatusUpdate` in src/unnamed/part_001 (package event). -/

namespace Event

/-- `_numOrphanTaskKillAttempts` from src/unnamed/part_001:52. -/
def numOrphanTaskKillAttempts : Nat := 3

/-- Oracles for the effectful calls made by `ProcessStatusUpdate`:
the outcome of `convertEvent`, of `isOrphanTaskEvent`
(`none` models an error, `some b` a successful check returning `b`),
and the per-attempt outcome of `KillOrphanTask`
(`killOk i = true` means attempt `i` returned nil). -/
structure StatusUpdateEnv where
  convertOk : Bool
  orphanCheck : Option Bool
  killOk : Nat → Bool

/-- Observable outcome of `ProcessStatusUpdate`. -/
inductive PSUResult
  | err
  | okOrphanSkipped (attempts : Nat)
  | okNormal
deriving DecidableEq

/-- Whether an error is propagated to the caller. -/
def PSUResult.returnsError : PSUResult → Bool
  | .err => true
  | _ => false

/-- Whether the task-runtime-update code path (everything after the orphan
branch, ending in `CompareAndSetTask`) is reached. -/
def PSUResult.updatesTaskRuntime : PSUResult → Bool
  | .okNormal => true
  | _ => false

/-- The orphan-kill retry loop of src/unnamed/part_001:172-179: attempt up to
`n` kills starting at attempt index `i`, stopping at the first success.
Returns the number of attempts made and whether any succeeded; the
surrounding code returns nil in both cases. -/
def orphanKillLoop (killOk : Nat → Bool) : Nat → Nat → Nat × Bool
  | i, 0 => (i, false)
  | i, n + 1 => if killOk i then (i + 1, true) else orphanKillLoop killOk (i + 1) n

/-- Control-flow embedding of `ProcessStatusUpdate`
(src/unnamed/part_001:147-180): convert the event, check for orphan; an
orphan is handled by the kill loop and nil is returned regardless of kill
outcomes; a non-orphan continues into the normal processing path. -/
def processStatusUpdate (env : StatusUpdateEnv) : PSUResult :=
  if env.convertOk then
    match env.orphanCheck with
    | none => .err
    | some true =>
        .okOrphanSkipped (orphanKillLoop env.killOk 0 numOrphanTaskKillAttempts).1
    | some false => .okNormal
  else .err

end Event

/-! ## Host manager offer pool

The offer-pool / host-summary / matcher implementation
(pkg/hostmgr/offer/offerpool, pkg/hostmgr/summary) is not in the sources;
only its test suite (pool_test.go) is.  The definitions below are modelled
from the specification (spec §3, §4.1–§4.3), with the test suite fixing
behaviour where it speaks. -/

namespace HostMgr

/-- Scalar resource bundle {cpu, mem, disk, gpu} (spec §3).  Mesos scalars
are float64; the claims use only addition and order comparisons of totally
ordered quantities, modelled with integers. -/
structure Resources where
  cpu : Int
  mem : Int
  disk : Int
  gpu : Int
deriving DecidableEq

/-- Modelled from the spec: an offer from the master (spec §3) — unique
offer id, hostname, reservation flag, typed resources (ports as a count),
optional unavailability window start (nanosecond timestamp). -/
structure Offer where
  id : String
  hostname : String
  reserved : Bool
  resources : Resources
  numPorts : Nat
  unavailabilityStart : Option Int
deriving DecidableEq

inductive HostStatus
  | ready
  | placing
deriving DecidableEq

/-- Modelled from the spec: the per-host summary (spec §3, §4.1); `claimId`
is the id issued at the last successful TryMatch, invalidated when the host
leaves Placing. -/
structure HostSummary where
  unreservedOffers : List Offer
  reservedOffers : List Offer
  status : HostStatus
  claimId : Option Nat
  placingExpiration : Int
deriving DecidableEq

def emptySummary : HostSummary :=
  { unreservedOffers := [], reservedOffers := [], status := .ready,
    claimId := none, placingExpiration := 0 }

/-- The offer ids held by a summary, across both maps. -/
def summaryOfferIds (s : HostSummary) : List String :=
  (s.unreservedOffers ++ s.reservedOffers).map Offer.id

def HostSummary.hasNoOffers (s : HostSummary) : Bool :=
  s.unreservedOffers.isEmpty && s.reservedOffers.isEmpty

/-- Modelled from the spec: AddMesosOffer's storage step (spec §4.1).
Offer ids are unique (spec §3), so the id is re-keyed before insertion;
reserved offers go into `reservedOffers`, unreserved ones into
`unreservedOffers`; a Placing host keeps its status. -/
def HostSummary.addOffer (s : HostSummary) (o : Offer) : HostSummary :=
  if o.reserved then
    { s with
      unreservedOffers := s.unreservedOffers.filter (fun q => decide (q.id ≠ o.id)),
      reservedOffers := o :: s.reservedOffers.filter (fun q => decide (q.id ≠ o.id)) }
  else
    { s with
      unreservedOffers := o :: s.unreservedOffers.filter (fun q => decide (q.id ≠ o.id)),
      reservedOffers := s.reservedOffers.filter (fun q => decide (q.id ≠ o.id)) }

/-- Modelled from the spec: RemoveMesosOffer (spec §4.1) — removes the id
from whichever map holds it; a summary emptied by removal reverts to
Ready (spec §4.1 state machine). -/
def HostSummary.removeOffer (s : HostSummary) (oid : String) : HostSummary :=
  if (s.unreservedOffers.filter (fun q => decide (q.id ≠ oid))).isEmpty &&
      (s.reservedOffers.filter (fun q => decide (q.id ≠ oid))).isEmpty then
    { s with
      unreservedOffers := s.unreservedOffers.filter (fun q => decide (q.id ≠ oid)),
      reservedOffers := s.reservedOffers.filter (fun q => decide (q.id ≠ oid)),
      status := .ready, claimId := none }
  else
    { s with
      unreservedOffers := s.unreservedOffers.filter (fun q => decide (q.id ≠ oid)),
      reservedOffers := s.reservedOffers.filter (fun q => decide (q.id ≠ oid)) }

def addResources (a b : Resources) : Resources :=
  { cpu := a.cpu + b.cpu, mem := a.mem + b.mem, disk := a.disk + b.disk, gpu := a.gpu + b.gpu }

/-- Sum of the scalar resources of a list of offers. -/
def sumResources (os : List Offer) : Resources :=
  os.foldl (fun r o => addResources r o.resources) { cpu := 0, mem := 0, disk := 0, gpu := 0 }

/-- Total port count of a list of offers. -/
def sumPorts (os : List Offer) : Nat :=
  (os.map Offer.numPorts).sum

/-- TryMatch / matchHostFilter outcome buckets (spec §4.2). -/
inductive HostFilterResult
  | matched
  | noOffer
  | mismatchStatus
  | mismatchConstraints
  | mismatchGpu
  | insufficientResources
deriving DecidableEq

/-- Outcome of evaluating a scheduling constraint against host attributes
(spec §4.3 step 6). -/
inductive ConstraintEval
  | evalMatch
  | evalMismatch
  | evalNotApplicable
  | evalError
deriving DecidableEq

structure ResourceConstraint where
  minimum : Resources
  numPorts : Nat
deriving DecidableEq

/-- Modelled from the spec: the HostFilter fields the matcher and the claim
walk recognize (spec §4.3); the scheduling-constraint evaluation outcome is
carried pre-evaluated (`none` = no constraint), and the host/rank hints are
not modelled. -/
structure HostFilter where
  maxHosts : Nat
  resourceConstraint : ResourceConstraint
  schedulingConstraint : Option ConstraintEval
deriving DecidableEq

/-- Modelled from the spec: `matchHostFilter` (spec §4.3), evaluated in the
fixed order: no offers, resource minima, port count, GPU exclusivity,
scheduling constraint; the first failing predicate is the result. -/
def matchHostFilter (offers : List Offer) (f : HostFilter) : HostFilterResult :=
  if offers.isEmpty then .noOffer
  else
    let R := sumResources offers
    if R.cpu < f.resourceConstraint.minimum.cpu ∨
        R.mem < f.resourceConstraint.minimum.mem ∨
        R.disk < f.resourceConstraint.minimum.disk ∨
        R.gpu < f.resourceConstraint.minimum.gpu then .insufficientResources
    else if sumPorts offers < f.resourceConstraint.numPorts then .insufficientResources
    else if 0 < R.gpu ∧ f.resourceConstraint.minimum.gpu = 0 then .mismatchGpu
    else
      match f.schedulingConstraint with
      | some .evalMismatch => .mismatchConstraints
      | some .evalError => .mismatchConstraints
      | _ => .matched

/-- Modelled from the spec: TryMatch (spec §4.1): a Placing host reports
MISMATCH_STATUS without evaluating constraints; on a match from Ready the
host transitions to Placing, stamps `now + placingTimeout`, takes the
offered claim id, and yields its unreserved offers. -/
def HostSummary.tryMatch (s : HostSummary) (now pt : Int) (cid : Nat) (f : HostFilter) :
    HostSummary × Option (List Offer) × HostFilterResult :=
  if s.status = .placing then (s, none, .mismatchStatus)
  else
    match matchHostFilter s.unreservedOffers f with
    | .matched =>
      ({ s with status := .placing, claimId := some cid, placingExpiration := now + pt },
        some s.unreservedOffers, .matched)
    | r => (s, none, r)

/-- A `timedOffers` entry (spec §3, §4.5): the holding hostname and the
expiration instant. -/
structure TimedOffer where
  hostname : String
  expiration : Int
deriving DecidableEq

/-- Modelled from the spec: the pool state (spec §3).  The three maps are
association lists with unique keys; the index order of `hostIndex` stands
in for the ranker's order. -/
structure OfferPool where
  hostIndex : List (String × HostSummary)
  timedOffers : List (String × TimedOffer)
  heldIndex : List (String × String)
  offerHoldTime : Int
  placingTimeout : Int
  nextClaimId : Nat
deriving DecidableEq

def OfferPool.empty (holdTime pt : Int) : OfferPool :=
  { hostIndex := [], timedOffers := [], heldIndex := [],
    offerHoldTime := holdTime, placingTimeout := pt, nextClaimId := 0 }

def nanosPerHour : Int := 3600 * 1000000000

/-- `unavailableOfferLookahead` (spec §6): fixed at 3 hours. -/
def unavailableOfferLookahead : Int := 3 * nanosPerHour

/-- Modelled from the spec: an offer is rejected on ingest iff it carries an
unavailability window that starts at most 3 hours from now, or has already
started (spec §4.1, §8 boundary behaviours). -/
def Offer.rejectedForMaintenance (o : Offer) (now : Int) : Bool :=
  match o.unavailabilityStart with
  | none => false
  | some st => decide (st ≤ now + unavailableOfferLookahead)

/-- Modelled from the spec: AddOffers' accept path for one offer (spec
§4.2): dispatch to the host's summary (created on first sight) and record
in `timedOffers` with expiration `now + offerHoldTime`. -/
def OfferPool.acceptOffer (p : OfferPool) (now : Int) (o : Offer) : OfferPool :=
  let s := (lookupA p.hostIndex o.hostname).getD emptySummary
  { p with
    hostIndex := upsertA p.hostIndex o.hostname (s.addOffer o),
    timedOffers := upsertA p.timedOffers o.id
      { hostname := o.hostname, expiration := now + p.offerHoldTime } }

/-- Modelled from the spec: AddOffers (spec §4.2): unavailable offers are
accumulated into a synchronous decline batch and not stored; the rest are
dispatched and timed.  Returns the pool, the declined ids, and the count of
accepted offers. -/
def OfferPool.AddOffers (p : OfferPool) (now : Int) (offers : List Offer) :
    OfferPool × List String × Nat :=
  offers.foldl
    (fun acc o =>
      if o.rejectedForMaintenance now then (acc.1, acc.2.1 ++ [o.id], acc.2.2)
      else (acc.1.acceptOffer now o, acc.2.1, acc.2.2 + 1))
    (p, [], 0)

/-- Remove an offer id from the named host's summary (no-op for an unknown
hostname). -/
def OfferPool.removeFromSummary (p : OfferPool) (h oid : String) : OfferPool :=
  match lookupA p.hostIndex h with
  | none => p
  | some s => { p with hostIndex := setKeyA p.hostIndex h (s.removeOffer oid) }

/-- Modelled from the spec: RescindOffer (spec §4.2): removes the offer from
`timedOffers` and from its summary; idempotent — returns false and leaves
the pool unchanged when the id is unknown. -/
def OfferPool.RescindOffer (p : OfferPool) (oid : String) : OfferPool × Bool :=
  match lookupA p.timedOffers oid with
  | none => (p, false)
  | some td =>
    (OfferPool.removeFromSummary
      { p with timedOffers := eraseKeyA p.timedOffers oid } td.hostname oid, true)

/-- Modelled from the spec: DeclineOffers' local removal (spec §4.2): each
id is removed from `timedOffers` and its summary; unknown ids are silently
skipped.  The decline RPC to the master carries no pool state and is outside
the model. -/
def OfferPool.DeclineOffers (p : OfferPool) (oids : List String) : OfferPool :=
  oids.foldl (fun q oid => (q.RescindOffer oid).1) p

/-- Modelled from the spec: RemoveExpiredOffers (spec §4.2): an offer is
expired when `expiration ≤ now`; expired offers are removed from
`timedOffers` and their summaries.  Returns the removed entries and the
count of offers still valid. -/
def OfferPool.RemoveExpiredOffers (p : OfferPool) (now : Int) :
    OfferPool × List (String × TimedOffer) × Nat :=
  let expired := p.timedOffers.filter (fun e => decide (e.2.expiration ≤ now))
  (expired.foldl (fun q e => (q.RescindOffer e.1).1) p, expired,
    p.timedOffers.length - expired.length)

/-- Modelled from the spec: RemoveReservedOffer (spec §4.2): explicit
eviction of an offer the named host holds, from the summary and from
`timedOffers`; an id the host does not hold is a no-op (the test suite
removes a dummy offer of a dummy host without effect). -/
def OfferPool.RemoveReservedOffer (p : OfferPool) (h oid : String) : OfferPool :=
  match lookupA p.hostIndex h with
  | none => p
  | some s =>
    if oid ∈ summaryOfferIds s then
      { p with
        hostIndex := setKeyA p.hostIndex h (s.removeOffer oid),
        timedOffers := eraseKeyA p.timedOffers oid }
    else p

/-- Modelled from the spec and the pool test suite: ClaimForLaunch (spec
§4.2, §4.1).  An unknown hostname is an error.  For unreserved launches the
host must be Placing and the claim id must match the one issued at the last
successful claim; the unreserved offers are drained, the host returns to
Ready, and the consumed ids leave `timedOffers`.  Reserved launches drain
the reserved offers (the test suite launches reserved offers without a
prior placement claim).  On error nothing moves. -/
def OfferPool.ClaimForLaunch (p : OfferPool) (h : String) ( useReserved : Bool) (cid : Nat) :
    OfferPool × Option (List Offer) :=
  match lookupA p.hostIndex h with
  | none => (p, none)
  | some s =>
    if useReserved then
      ({ p with
          hostIndex := setKeyA p.hostIndex h { s with reservedOffers := [] },
          timedOffers := s.reservedOffers.foldl (fun t o => eraseKeyA t o.id) p.timedOffers },
        some s.reservedOffers)
    else
      if s.status = .placing ∧ s.claimId = some cid then
        ({ p with
            hostIndex := setKeyA p.hostIndex h
              { s with unreservedOffers := [], status := .ready, claimId := none },
            timedOffers := s.unreservedOffers.foldl (fun t o => eraseKeyA t o.id) p.timedOffers },
          some s.unreservedOffers)
      else (p, none)

/-- One ClaimForPlace result entry: the matched hostname, the freshly issued
claim id, and the host's unreserved offers. -/
structure Claimed where
  hostname : String
  claimId : Nat
  offers : List Offer
deriving DecidableEq

/-- Tally of TryMatch outcomes, bucketed by mismatch reason (spec §4.2). -/
structure ResultCounts where
  matched : Nat
  noOffer : Nat
  mismatchStatus : Nat
  mismatchConstraints : Nat
  mismatchGpu : Nat
  insufficientResources : Nat
deriving DecidableEq

def zeroCounts : ResultCounts :=
  { matched := 0, noOffer := 0, mismatchStatus := 0, mismatchConstraints := 0,
    mismatchGpu := 0, insufficientResources := 0 }

def bumpCount (c : ResultCounts) : HostFilterResult → ResultCounts
  | .matched => { c with matched := c.matched + 1 }
  | .noOffer => { c with noOffer := c.noOffer + 1 }
  | .mismatchStatus => { c with mismatchStatus := c.mismatchStatus + 1 }
  | .mismatchConstraints => { c with mismatchConstraints := c.mismatchConstraints + 1 }
  | .mismatchGpu => { c with mismatchGpu := c.mismatchGpu + 1 }
  | .insufficientResources => { c with insufficientResources := c.insufficientResources + 1 }

/-- Modelled from the spec: the ranked walk of ClaimForPlace (spec §4.2):
visit summaries in ranked order until MaxHosts matches are found; every
visited summary's TryMatch outcome is tallied; each match consumes a fresh
claim id.  Returns the walked index, the matches, the tally, and the next
claim id. -/
def claimWalk (now pt : Int) (f : HostFilter) :
    List (String × HostSummary) → Nat → Nat →
    List (String × HostSummary) × List Claimed × ResultCounts × Nat
  | [], cid, _ => ([], [], zeroCounts, cid)
  | (h, s) :: rest, cid, k =>
    if f.maxHosts ≤ k then ((h, s) :: rest, [], zeroCounts, cid)
    else
      match s.tryMatch now pt cid f with
      | (s', some offers, r) =>
        let t := claimWalk now pt f rest (cid + 1) (k + 1)
        ((h, s') :: t.1, { hostname := h, claimId := cid, offers := offers } :: t.2.1,
          bumpCount t.2.2.1 r, t.2.2.2)
      | (s', none, r) =>
        let t := claimWalk now pt f rest cid k
        ((h, s') :: t.1, t.2.1, bumpCount t.2.2.1 r, t.2.2.2)

/-- Modelled from the spec: ClaimForPlace (spec §4.2): walk the index,
install the updated summaries and the advanced claim-id counter, and return
the matches with the mismatch tally. -/
def OfferPool.ClaimForPlace (p : OfferPool) (now : Int) (f : HostFilter) :
    OfferPool × List Claimed × ResultCounts :=
  let t := claimWalk now p.placingTimeout f p.hostIndex p.nextClaimId 0
  ({ p with hostIndex := t.1, nextClaimId := t.2.2.2 }, t.2.1, t.2.2.1)

/-- Modelled from the spec: ReturnUnusedOffers (spec §4.2, §4.1): a Placing
host returns to Ready; offers remain resident; the claim id is
invalidated. -/
def OfferPool.ReturnUnusedOffers (p : OfferPool) (h : String) : OfferPool :=
  match lookupA p.hostIndex h with
  | none => p
  | some s =>
    if s.status = .placing then
      { p with hostIndex := setKeyA p.hostIndex h { s with status := .ready, claimId := none } }
    else p

/-- Modelled from the spec: ResetExpiredPlacingOfferStatus for one summary
(spec §4.1): a Placing host whose expiration has passed reverts to Ready. -/
def resetSummary (now : Int) (s : HostSummary) : HostSummary × Bool :=
  if s.status = .placing ∧ s.placingExpiration ≤ now then
    ({ s with status := .ready, claimId := none }, true)
  else (s, false)

/-- Modelled from the spec: ResetExpiredPlacingHostSummaries (spec §4.2):
sweep every summary; returns the hostnames that were reset. -/
def OfferPool.ResetExpiredPlacingHostSummaries (p : OfferPool) (now : Int) :
    OfferPool × List String :=
  ({ p with hostIndex := p.hostIndex.map (fun e => (e.1, (resetSummary now e.2).1)) },
    (p.hostIndex.filter (fun e => (resetSummary now e.2).2)).map Prod.fst)

/-- Modelled from the spec: Clear (spec §4.2): empties everything. -/
def OfferPool.Clear (p : OfferPool) : OfferPool :=
  { p with hostIndex := [], timedOffers := [], heldIndex := [] }

/-- Modelled from the spec: HoldForTasks (spec §4.2): requires a known
host; records each task in the held index, last writer wins (spec §3
invariant 4). -/
def OfferPool.HoldForTasks (p : OfferPool) (h : String) (ts : List String) :
    Option OfferPool :=
  match lookupA p.hostIndex h with
  | none => none
  | some _ =>
    some { p with heldIndex := ts.foldl (fun idx t => upsertA idx t h) p.heldIndex }

/-- Modelled from the spec and the pool test suite: ReleaseHoldForTasks
(spec §4.2): requires a known host; deletes each task's held entry (the
test suite shows the entry is deleted even when the task is held by a
different host). -/
def OfferPool.ReleaseHoldForTasks (p : OfferPool) (h : String) (ts : List String) :
    Option OfferPool :=
  match lookupA p.hostIndex h with
  | none => none
  | some _ =>
    some { p with heldIndex := ts.foldl (fun idx t => eraseKeyA idx t) p.heldIndex }

/-- Modelled from the spec: GetHostHeldForTask (spec §4.2): the hostname the
task is held on, or empty. -/
def OfferPool.GetHostHeldForTask (p : OfferPool) (t : String) : String :=
  (lookupA p.heldIndex t).getD ""

/-- The hostname `h` has a summary holding offer id `oid`. -/
def summaryHolds (p : OfferPool) (h oid : String) : Prop :=
  match lookupA p.hostIndex h with
  | some s => oid ∈ summaryOfferIds s
  | none => False

instance summaryHoldsDecidable (p : OfferPool) (h oid : String) :
    Decidable (summaryHolds p h oid) := by
  unfold summaryHolds
  cases lookupA p.hostIndex h <;> exact inferInstance

/-- The offer id's `timedOffers` entry names hostname `h`. -/
def timedAt (p : OfferPool) (oid h : String) : Prop :=
  match lookupA p.timedOffers oid with
  | some td => td.hostname = h
  | none => False

instance timedAtDecidable (p : OfferPool) (oid h : String) :
    Decidable (timedAt p oid h) := by
  unfold timedAt
  cases lookupA p.timedOffers oid <;> exact inferInstance

/-- The C1 correspondence (spec §3 invariant 1): every `timedOffers` entry
names a summary holding its offer id, and every offer id held by a summary
is timed at that hostname. -/
def consistent (p : OfferPool) : Prop :=
  (∀ e ∈ p.timedOffers, summaryHolds p e.2.hostname e.1) ∧
  (∀ e ∈ p.hostIndex, ∀ oid ∈ summaryOfferIds e.2, timedAt p oid e.1)

instance consistentDecidable (p : OfferPool) : Decidable (consistent p) := by
  unfold consistent
  exact inferInstance

/-- Within a summary an offer id lives in at most one of the two offer maps
(offer ids are unique, spec §3). -/
def summaryIdsWf (s : HostSummary) : Prop :=
  ∀ x ∈ s.unreservedOffers.map Offer.id, x ∉ s.reservedOffers.map Offer.id

instance summaryIdsWfDecidable (s : HostSummary) : Decidable (summaryIdsWf s) := by
  unfold summaryIdsWf
  exact inferInstance

/-- Map well-formedness: every summary keeps its two offer maps disjoint. -/
def poolWf (p : OfferPool) : Prop :=
  ∀ e ∈ p.hostIndex, summaryIdsWf e.2

instance poolWfDecidable (p : OfferPool) : Decidable (poolWf p) := by
  unfold poolWf
  exact inferInstance

/-- The pool invariant: well-formed maps and the timed-offers/summaries
correspondence. -/
def poolInv (p : OfferPool) : Prop := poolWf p ∧ consistent p

instance poolInvDecidable (p : OfferPool) : Decidable (poolInv p) := by
  unfold poolInv
  exact inferInstance

/-- Freshness of an offer towards a pool (spec §3: offer ids are unique):
if the id is already timed, it is a re-offer on the same host. -/
def offerFreshFor (p : OfferPool) (o : Offer) : Prop :=
  ∀ td, lookupA p.timedOffers o.id = some td → td.hostname = o.hostname

theorem lookupA_mem {β : Type} (l : List (String × β)) (k : String) (v : β)
    (h : lookupA l k = some v) : (k, v) ∈ l := by
  induction l with
  | nil => simp at h
  | cons e l ih =>
    rw [lookupA_cons] at h
    by_cases he : e.1 = k
    · rw [if_pos he] at h
      obtain ⟨a, b⟩ := e
      simp at he h
      subst he
      subst h
      exact List.mem_cons_self _ _
    · rw [if_neg he] at h
      exact List.mem_cons_of_mem _ (ih h)

theorem lookupA_eq_none {β : Type} (l : List (String × β)) (k : String) :
    lookupA l k = none ↔ ∀ e ∈ l, e.1 ≠ k := by
  induction l with
  | nil => simp
  | cons e l ih => by_cases he : e.1 = k <;> simp [he, ih]

theorem mem_eraseKeyA {β : Type} (l : List (String × β)) (k : String) (e : String × β) :
    e ∈ eraseKeyA l k ↔ e ∈ l ∧ e.1 ≠ k := by
  induction l with
  | nil => simp [eraseKeyA]
  | cons e2 l ih =>
    by_cases he : e2.1 = k
    · rw [show eraseKeyA (e2 :: l) k = eraseKeyA l k from by simp [eraseKeyA, he]]
      rw [ih]
      constructor
      · rintro ⟨h1, h2⟩
        exact ⟨List.mem_cons_of_mem _ h1, h2⟩
      · rintro ⟨h1, h2⟩
        rcases List.mem_cons.mp h1 with h3 | h3
        · exact absurd (by rw [h3]; exact he) h2
        · exact ⟨h3, h2⟩
    · rw [show eraseKeyA (e2 :: l) k = e2 :: eraseKeyA l k from by simp [eraseKeyA, he]]
      simp only [List.mem_cons, ih]
      constructor
      · rintro (h1 | ⟨h1, h2⟩)
        · exact ⟨Or.inl h1, by rw [h1]; exact he⟩
        · exact ⟨Or.inr h1, h2⟩
      · rintro ⟨h1 | h1, h2⟩
        · exact Or.inl h1
        · exact Or.inr ⟨h1, h2⟩

theorem mem_setKeyA {β : Type} (l : List (String × β)) (k : String) (v : β) (e : String × β)
    (h : e ∈ setKeyA l k v) : (e ∈ l ∧ e.1 ≠ k) ∨ e = (k, v) := by
  induction l with
  | nil => simp [setKeyA] at h
  | cons e2 l ih =>
    by_cases he : e2.1 = k
    · rw [show setKeyA (e2 :: l) k v = (k, v) :: setKeyA l k v from by simp [setKeyA, he]] at h
      rcases List.mem_cons.mp h with h1 | h1
      · exact Or.inr h1
      · rcases ih h1 with ⟨h2, h3⟩ | h2
        · exact Or.inl ⟨List.mem_cons_of_mem _ h2, h3⟩
        · exact Or.inr h2
    · rw [show setKeyA (e2 :: l) k v = e2 :: setKeyA l k v from by simp [setKeyA, he]] at h
      rcases List.mem_cons.mp h with h1 | h1
      · exact Or.inl ⟨by rw [h1]; exact List.mem_cons_self _ _, by rw [h1]; exact he⟩
      · rcases ih h1 with ⟨h2, h3⟩ | h2
        · exact Or.inl ⟨List.mem_cons_of_mem _ h2, h3⟩
        · exact Or.inr h2

theorem mem_upsertA {β : Type} (l : List (String × β)) (k : String) (v : β) (e : String × β)
    (h : e ∈ upsertA l k v) : (e ∈ l ∧ e.1 ≠ k) ∨ e = (k, v) := by
  unfold upsertA at h
  by_cases hs : (lookupA l k).isSome
  · rw [if_pos hs] at h
    exact mem_setKeyA l k v e h
  · rw [if_neg hs] at h
    rcases List.mem_append.mp h with h1 | h1
    · have hnone := Option.not_isSome_iff_eq_none.mp hs
      exact Or.inl ⟨h1, (lookupA_eq_none l k).mp hnone e h1⟩
    · exact Or.inr (by simpa using h1)

theorem lookupA_eraseFold {β : Type} (ids : List String) (t0 : List (String × β)) (k : String) :
    lookupA (ids.foldl (fun t i => eraseKeyA t i) t0) k =
      if k ∈ ids then none else lookupA t0 k := by
  induction ids generalizing t0 with
  | nil => simp
  | cons i ids ih =>
    rw [List.foldl_cons, ih]
    by_cases hk : k ∈ ids
    · simp [hk]
    · by_cases hki : k = i
      · simp [hk, hki, lookupA_eraseKeyA]
      · simp [hk, hki, lookupA_eraseKeyA]

theorem lookupA_holdFold (idx : List (String × String)) (ts : List String) (h t : String) :
    lookupA (ts.foldl (fun i x => upsertA i x h) idx) t =
      if t ∈ ts then some h else lookupA idx t := by
  induction ts generalizing idx with
  | nil => simp
  | cons x ts ih =>
    rw [List.foldl_cons, ih]
    by_cases ht : t ∈ ts
    · simp [ht]
    · by_cases htx : t = x
      · simp [ht, htx, lookupA_upsertA]
      · simp [ht, htx, lookupA_upsertA]

theorem mem_ids_removeOffer (s : HostSummary) (oid oid' : String) :
    oid' ∈ summaryOfferIds (s.removeOffer oid) ↔
      oid' ∈ summaryOfferIds s ∧ oid' ≠ oid := by
  have hids : summaryOfferIds (s.removeOffer oid) =
      ((s.unreservedOffers.filter (fun q => decide (q.id ≠ oid))) ++
        (s.reservedOffers.filter (fun q => decide (q.id ≠ oid)))).map Offer.id := by
    unfold HostSummary.removeOffer summaryOfferIds
    split <;> rfl
  rw [hids]
  clear hids
  simp only [summaryOfferIds, List.mem_map, List.mem_append, List.mem_filter,
    decide_eq_true_eq]
  constructor
  · rintro ⟨q, hq | hq, rfl⟩
    · exact ⟨⟨q, Or.inl hq.1, rfl⟩, hq.2⟩
    · exact ⟨⟨q, Or.inr hq.1, rfl⟩, hq.2⟩
  · rintro ⟨⟨q, hq | hq, rfl⟩, hne⟩
    · exact ⟨q, Or.inl ⟨hq, hne⟩, rfl⟩
    · exact ⟨q, Or.inr ⟨hq, hne⟩, rfl⟩

theorem mem_ids_addOffer (s : HostSummary) (o : Offer) (oid' : String) :
    oid' ∈ summaryOfferIds (s.addOffer o) ↔
      oid' = o.id ∨ (oid' ∈ summaryOfferIds s ∧ oid' ≠ o.id) := by
  by_cases hr : o.reserved = true
  · have h1 : s.addOffer o =
        { s with
          unreservedOffers := s.unreservedOffers.filter (fun q => decide (q.id ≠ o.id)),
          reservedOffers := o :: s.reservedOffers.filter (fun q => decide (q.id ≠ o.id)) } := by
      unfold HostSummary.addOffer
      rw [if_pos hr]
    rw [h1]
    simp only [summaryOfferIds, List.mem_map, List.mem_append, List.mem_filter,
      List.mem_cons, decide_eq_true_eq]
    constructor
    · rintro ⟨q, hq | (rfl | hq), rfl⟩
      · exact Or.inr ⟨⟨q, Or.inl hq.1, rfl⟩, hq.2⟩
      · exact Or.inl rfl
      · exact Or.inr ⟨⟨q, Or.inr hq.1, rfl⟩, hq.2⟩
    · rintro (rfl | ⟨⟨q, hq | hq, rfl⟩, hne⟩)
      · exact ⟨o, Or.inr (Or.inl rfl), rfl⟩
      · exact ⟨q, Or.inl ⟨hq, hne⟩, rfl⟩
      · exact ⟨q, Or.inr (Or.inr ⟨hq, hne⟩), rfl⟩
  · have h1 : s.addOffer o =
        { s with
          unreservedOffers := o :: s.unreservedOffers.filter (fun q => decide (q.id ≠ o.id)),
          reservedOffers := s.reservedOffers.filter (fun q => decide (q.id ≠ o.id)) } := by
      unfold HostSummary.addOffer
      rw [if_neg hr]
    rw [h1]
    simp only [summaryOfferIds, List.mem_map, List.mem_append, List.mem_filter,
      List.mem_cons, decide_eq_true_eq]
    constructor
    · rintro ⟨q, (rfl | hq) | hq, rfl⟩
      · exact Or.inl rfl
      · exact Or.inr ⟨⟨q, Or.inl hq.1, rfl⟩, hq.2⟩
      · exact Or.inr ⟨⟨q, Or.inr hq.1, rfl⟩, hq.2⟩
    · rintro (rfl | ⟨⟨q, hq | hq, rfl⟩, hne⟩)
      · exact ⟨o, Or.inl (Or.inl rfl), rfl⟩
      · exact ⟨q, Or.inl (Or.inr ⟨hq, hne⟩), rfl⟩
      · exact ⟨q, Or.inr ⟨hq, hne⟩, rfl⟩

theorem timedOffers_removeFromSummary (p : OfferPool) (h oid : String) :
    (p.removeFromSummary h oid).timedOffers = p.timedOffers := by
  unfold OfferPool.removeFromSummary
  cases lookupA p.hostIndex h <;> rfl

theorem hostIndex_removeFromSummary (p : OfferPool) (h oid : String) :
    (p.removeFromSummary h oid).hostIndex =
      match lookupA p.hostIndex h with
      | none => p.hostIndex
      | some s => setKeyA p.hostIndex h (s.removeOffer oid) := by
  unfold OfferPool.removeFromSummary
  cases lookupA p.hostIndex h <;> rfl

theorem addOffers_foldl (now : Int) (offers : List Offer) (p : OfferPool)
    (decl : List String) (n : Nat) :
    offers.foldl
      (fun acc o =>
        if o.rejectedForMaintenance now then (acc.1, acc.2.1 ++ [o.id], acc.2.2)
        else (acc.1.acceptOffer now o, acc.2.1, acc.2.2 + 1))
      (p, decl, n) =
      ((offers.filter (fun o => !(o.rejectedForMaintenance now))).foldl
          (fun q o => q.acceptOffer now o) p,
        decl ++ (offers.filter (fun o => o.rejectedForMaintenance now)).map Offer.id,
        n + (offers.filter (fun o => !(o.rejectedForMaintenance now))).length) := by
  have harith : ∀ a b : Nat, (a + 1) + b = a + (b + 1) := by omega
  induction offers generalizing p decl n with
  | nil => simp
  | cons o os ih =>
    by_cases hr : o.rejectedForMaintenance now = true
    · simp only [List.foldl_cons, hr, if_true, List.filter_cons, Bool.not_true]
      rw [ih]
      simp [List.append_assoc]
    · have hr2 : o.rejectedForMaintenance now = false := by
        cases hro : o.rejectedForMaintenance now
        · rfl
        · exact absurd hro hr
      simp only [List.foldl_cons, hr2, Bool.false_eq_true, if_false, List.filter_cons,
        Bool.not_false]
      rw [ih]
      simp [harith]

theorem mem_lookupA_isSome {β : Type} (l : List (String × β)) (e : String × β)
    (h : e ∈ l) : (lookupA l e.1).isSome := by
  induction l with
  | nil => simp at h
  | cons e2 l ih =>
    rcases List.mem_cons.mp h with h2 | h2
    · rw [h2]
      simp
    · by_cases he : e2.1 = e.1 <;> simp [he, ih h2]

theorem mem_eraseFold {β : Type} (ids : List String) (t0 : List (String × β))
    (e : String × β) :
    e ∈ ids.foldl (fun t i => eraseKeyA t i) t0 ↔ e ∈ t0 ∧ e.1 ∉ ids := by
  induction ids generalizing t0 with
  | nil => simp
  | cons i ids ih =>
    rw [List.foldl_cons, ih, mem_eraseKeyA]
    constructor
    · rintro ⟨⟨h1, h2⟩, h3⟩
      exact ⟨h1, by simp [h2, h3]⟩
    · rintro ⟨h1, h2⟩
      simp only [List.mem_cons] at h2
      push_neg at h2
      exact ⟨⟨h1, h2.1⟩, h2.2⟩

theorem mem_map_filter_ne (l : List Offer) (x oid2 : String) :
    oid2 ∈ (l.filter (fun q => decide (q.id ≠ x))).map Offer.id ↔
      oid2 ∈ l.map Offer.id ∧ oid2 ≠ x := by
  simp only [List.mem_map, List.mem_filter, decide_eq_true_eq]
  constructor
  · rintro ⟨q, ⟨hq, hne⟩, rfl⟩
    exact ⟨⟨q, hq, rfl⟩, hne⟩
  · rintro ⟨⟨q, hq, rfl⟩, hne⟩
    exact ⟨q, ⟨hq, hne⟩, rfl⟩

theorem removeOffer_unres (s : HostSummary) (oid : String) :
    (s.removeOffer oid).unreservedOffers =
      s.unreservedOffers.filter (fun q => decide (q.id ≠ oid)) := by
  unfold HostSummary.removeOffer
  split <;> rfl

theorem removeOffer_res (s : HostSummary) (oid : String) :
    (s.removeOffer oid).reservedOffers =
      s.reservedOffers.filter (fun q => decide (q.id ≠ oid)) := by
  unfold HostSummary.removeOffer
  split <;> rfl

theorem summaryIdsWf_empty : summaryIdsWf emptySummary := by
  intro x hx
  simp [emptySummary] at hx

theorem summaryIdsWf_removeOffer (s : HostSummary) (oid : String)
    (h : summaryIdsWf s) : summaryIdsWf (s.removeOffer oid) := by
  intro x hx
  rw [removeOffer_unres, mem_map_filter_ne] at hx
  rw [removeOffer_res, mem_map_filter_ne]
  intro hc
  exact h x hx.1 hc.1

theorem summaryIdsWf_addOffer (s : HostSummary) (o : Offer)
    (h : summaryIdsWf s) : summaryIdsWf (s.addOffer o) := by
  by_cases hr : o.reserved = true
  · have h1 : s.addOffer o =
        { s with
          unreservedOffers := s.unreservedOffers.filter (fun q => decide (q.id ≠ o.id)),
          reservedOffers := o :: s.reservedOffers.filter (fun q => decide (q.id ≠ o.id)) } := by
      unfold HostSummary.addOffer
      rw [if_pos hr]
    rw [h1]
    intro x hx
    simp only at hx
    rw [mem_map_filter_ne] at hx
    simp only [List.map_cons, List.mem_cons]
    push_neg
    refine ⟨hx.2, ?_⟩
    rw [mem_map_filter_ne]
    intro hc
    exact h x hx.1 hc.1
  · have h1 : s.addOffer o =
        { s with
          unreservedOffers := o :: s.unreservedOffers.filter (fun q => decide (q.id ≠ o.id)),
          reservedOffers := s.reservedOffers.filter (fun q => decide (q.id ≠ o.id)) } := by
      unfold HostSummary.addOffer
      rw [if_neg hr]
    rw [h1]
    intro x hx
    simp only [List.map_cons, List.mem_cons] at hx
    rw [mem_map_filter_ne]
    push_neg
    rcases hx with rfl | hx
    · intro _
      rfl
    · rw [mem_map_filter_ne] at hx
      intro hc
      exact absurd hc (h x hx.1)

theorem acceptOffer_hostIndex (p : OfferPool) (now : Int) (o : Offer) :
    (p.acceptOffer now o).hostIndex =
      upsertA p.hostIndex o.hostname
        (((lookupA p.hostIndex o.hostname).getD emptySummary).addOffer o) :=
  rfl

theorem acceptOffer_timed (p : OfferPool) (now : Int) (o : Offer) :
    (p.acceptOffer now o).timedOffers =
      upsertA p.timedOffers o.id
        { hostname := o.hostname, expiration := now + p.offerHoldTime } :=
  rfl

theorem acceptOffer_inv (p : OfferPool) (now : Int) (o : Offer)
    (hinv : poolInv p) (hfresh : offerFreshFor p o) :
    poolInv (p.acceptOffer now o) := by
  have hHI := acceptOffer_hostIndex p now o
  have hTO := acceptOffer_timed p now o
  have hGwf : summaryIdsWf ((lookupA p.hostIndex o.hostname).getD emptySummary) := by
    cases hL : lookupA p.hostIndex o.hostname with
    | none => simpa using summaryIdsWf_empty
    | some s0 =>
      simp only [Option.getD_some]
      exact hinv.1 (o.hostname, s0) (lookupA_mem _ _ _ hL)
  have hGtimed : ∀ x ∈ summaryOfferIds ((lookupA p.hostIndex o.hostname).getD emptySummary),
      timedAt p x o.hostname := by
    cases hL : lookupA p.hostIndex o.hostname with
    | none =>
      intro x hx
      simp [emptySummary, summaryOfferIds] at hx
    | some s0 =>
      intro x hx
      exact hinv.2.2 (o.hostname, s0) (lookupA_mem _ _ _ hL) x (by simpa using hx)
  have hGholds : ∀ x, summaryHolds p o.hostname x →
      x ∈ summaryOfferIds ((lookupA p.hostIndex o.hostname).getD emptySummary) := by
    intro x hx
    unfold summaryHolds at hx
    cases hL : lookupA p.hostIndex o.hostname with
    | none => rw [hL] at hx; exact hx.elim
    | some s0 => rw [hL] at hx; simpa using hx
  refine ⟨?_, ?_, ?_⟩
  · intro e he
    rw [hHI] at he
    rcases mem_upsertA _ _ _ _ he with ⟨hmem, _⟩ | heq
    · exact hinv.1 e hmem
    · rw [heq]
      exact summaryIdsWf_addOffer _ o hGwf
  · intro e he
    rw [hTO] at he
    rcases mem_upsertA _ _ _ _ he with ⟨hmem, hne⟩ | heq
    · have hold := hinv.2.1 e hmem
      unfold summaryHolds at hold ⊢
      rw [hHI, lookupA_upsertA]
      by_cases hh : e.2.hostname = o.hostname
      · rw [if_pos hh]
        refine (mem_ids_addOffer _ o e.1).mpr (Or.inr ⟨?_, hne⟩)
        apply hGholds
        unfold summaryHolds
        rw [← hh]
        exact hold
      · rw [if_neg hh]
        exact hold
    · rw [heq]
      unfold summaryHolds
      rw [hHI, lookupA_upsertA, if_pos rfl]
      exact (mem_ids_addOffer _ o o.id).mpr (Or.inl rfl)
  · intro e he x hx
    rw [hHI] at he
    rcases mem_upsertA _ _ _ _ he with ⟨hmem, hne⟩ | heq
    · have hT := hinv.2.2 e hmem x hx
      unfold timedAt at hT ⊢
      rw [hTO, lookupA_upsertA]
      by_cases hxo : x = o.id
      · rw [if_pos hxo]
        rw [hxo] at hT
        cases hLT : lookupA p.timedOffers o.id with
        | none => simp only [hLT] at hT
        | some td =>
          simp only [hLT] at hT
          have hfr := hfresh td hLT
          rw [hfr] at hT
          exact hT
      · rw [if_neg hxo]
        exact hT
    · rw [heq] at hx
      rcases (mem_ids_addOffer _ o x).mp hx with rfl | ⟨hxs, hxne⟩
      · rw [heq]
        unfold timedAt
        rw [hTO, lookupA_upsertA, if_pos rfl]
      · rw [heq]
        have hT := hGtimed x hxs
        unfold timedAt at hT ⊢
        rw [hTO, lookupA_upsertA, if_neg hxne]
        exact hT

theorem acceptOffer_fresh (p : OfferPool) (now : Int) (o o2 : Offer)
    (hf2 : offerFreshFor p o2)
    (hsame : o.id = o2.id → o.hostname = o2.hostname) :
    offerFreshFor (p.acceptOffer now o) o2 := by
  intro td htd
  rw [acceptOffer_timed, lookupA_upsertA] at htd
  by_cases h : o2.id = o.id
  · rw [if_pos h] at htd
    injection htd with h2
    rw [← h2]
    exact hsame h.symm
  · rw [if_neg h] at htd
    exact hf2 td htd

theorem addOffers_inv_aux (now : Int) (offers : List Offer) :
    ∀ (p : OfferPool) (decl : List String) (n : Nat),
      poolInv p → (∀ o ∈ offers, offerFreshFor p o) →
      (∀ o ∈ offers, ∀ o2 ∈ offers, o.id = o2.id → o.hostname = o2.hostname) →
      poolInv (offers.foldl
        (fun acc o =>
          if o.rejectedForMaintenance now then (acc.1, acc.2.1 ++ [o.id], acc.2.2)
          else (acc.1.acceptOffer now o, acc.2.1, acc.2.2 + 1))
        (p, decl, n)).1 := by
  induction offers with
  | nil =>
    intro p decl n hinv _ _
    simpa using hinv
  | cons o os ih =>
    intro p decl n hinv hfresh hpair
    rw [List.foldl_cons]
    by_cases hr : o.rejectedForMaintenance now = true
    · rw [if_pos hr]
      exact ih p (decl ++ [o.id]) n hinv
        (fun o2 h2 => hfresh o2 (List.mem_cons_of_mem _ h2))
        (fun o2 h2 o3 h3 =>
          hpair o2 (List.mem_cons_of_mem _ h2) o3 (List.mem_cons_of_mem _ h3))
    · rw [if_neg hr]
      exact ih (p.acceptOffer now o) decl (n + 1)
        (acceptOffer_inv p now o hinv (hfresh o (List.mem_cons_self _ _)))
        (fun o2 h2 => acceptOffer_fresh p now o o2
          (hfresh o2 (List.mem_cons_of_mem _ h2))
          (fun hid => hpair o (List.mem_cons_self _ _) o2 (List.mem_cons_of_mem _ h2) hid))
        (fun o2 h2 o3 h3 =>
          hpair o2 (List.mem_cons_of_mem _ h2) o3 (List.mem_cons_of_mem _ h3))

theorem removeFromSummary_noneL (q : OfferPool) (h oid : String)
    (hq : lookupA q.hostIndex h = none) : q.removeFromSummary h oid = q := by
  unfold OfferPool.removeFromSummary
  simp [hq]

theorem removeFromSummary_someL (q : OfferPool) (h oid : String) (s : HostSummary)
    (hq : lookupA q.hostIndex h = some s) :
    q.removeFromSummary h oid =
      { q with hostIndex := setKeyA q.hostIndex h (s.removeOffer oid) } := by
  unfold OfferPool.removeFromSummary
  simp [hq]

theorem rescindOffer_inv (p : OfferPool) (oid : String) (hinv : poolInv p) :
    poolInv (p.RescindOffer oid).1 := by
  cases hLT : lookupA p.timedOffers oid with
  | none =>
    have h1 : p.RescindOffer oid = (p, false) := by
      unfold OfferPool.RescindOffer
      simp [hLT]
    rw [h1]
    exact hinv
  | some td =>
    have h1 : (p.RescindOffer oid).1 =
        OfferPool.removeFromSummary { p with timedOffers := eraseKeyA p.timedOffers oid }
          td.hostname oid := by
      unfold OfferPool.RescindOffer
      simp [hLT]
    rw [h1]
    cases hH : lookupA p.hostIndex td.hostname with
    | none =>
      rw [removeFromSummary_noneL
        { p with timedOffers := eraseKeyA p.timedOffers oid } td.hostname oid hH]
      refine ⟨hinv.1, ?_, ?_⟩
      · intro e he
        rcases (mem_eraseKeyA _ _ _).mp he with ⟨hmem, _⟩
        exact hinv.2.1 e hmem
      · intro e he x hx
        have hT := hinv.2.2 e he x hx
        unfold timedAt at hT ⊢
        rw [show ({ p with timedOffers := eraseKeyA p.timedOffers oid } :
          OfferPool).timedOffers = eraseKeyA p.timedOffers oid from rfl]
        rw [lookupA_eraseKeyA]
        by_cases hx0 : x = oid
        · rw [hx0, hLT] at hT
          simp only at hT
          have hsome := mem_lookupA_isSome p.hostIndex e he
          rw [← hT] at hsome
          rw [hH] at hsome
          simp at hsome
        · rw [if_neg hx0]
          exact hT
    | some s0 =>
      rw [removeFromSummary_someL
        { p with timedOffers := eraseKeyA p.timedOffers oid } td.hostname oid s0 hH]
      refine ⟨?_, ?_, ?_⟩
      · intro e he
        rcases mem_setKeyA _ _ _ _ he with ⟨hmem, _⟩ | heq
        · exact hinv.1 e hmem
        · rw [heq]
          exact summaryIdsWf_removeOffer s0 oid
            (hinv.1 (td.hostname, s0) (lookupA_mem _ _ _ hH))
      · intro e he
        rcases (mem_eraseKeyA _ _ _).mp he with ⟨hmem, hne⟩
        have hold := hinv.2.1 e hmem
        unfold summaryHolds at hold ⊢
        rw [lookupA_setKeyA]
        by_cases hh : e.2.hostname = td.hostname
        · rw [if_pos hh, hH]
          simp only [Option.isSome_some, if_true]
          refine (mem_ids_removeOffer s0 oid e.1).mpr ⟨?_, hne⟩
          rw [hh] at hold
          rw [hH] at hold
          exact hold
        · rw [if_neg hh]
          exact hold
      · intro e he x hx
        rcases mem_setKeyA _ _ _ _ he with ⟨hmem, hne⟩ | heq
        · have hT := hinv.2.2 e hmem x hx
          unfold timedAt at hT ⊢
          rw [lookupA_eraseKeyA]
          by_cases hx0 : x = oid
          · rw [hx0, hLT] at hT
            simp only at hT
            exact absurd hT.symm hne
          · rw [if_neg hx0]
            exact hT
        · rw [heq] at hx ⊢
          have hxm := (mem_ids_removeOffer s0 oid x).mp hx
          have hT := hinv.2.2 (td.hostname, s0) (lookupA_mem _ _ _ hH) x hxm.1
          unfold timedAt at hT ⊢
          rw [lookupA_eraseKeyA, if_neg hxm.2]
          exact hT

theorem rescindFold_inv {α : Type} (f : α → String) (l : List α) :
    ∀ p : OfferPool, poolInv p →
      poolInv (l.foldl (fun q e => (q.RescindOffer (f e)).1) p) := by
  induction l with
  | nil =>
    intro p h
    exact h
  | cons a l ih =>
    intro p h
    rw [List.foldl_cons]
    exact ih _ (rescindOffer_inv _ _ h)

theorem declineOffers_inv (p : OfferPool) (oids : List String) (hinv : poolInv p) :
    poolInv (p.DeclineOffers oids) :=
  rescindFold_inv (fun x => x) oids p hinv

theorem removeExpired_inv (p : OfferPool) (now : Int) (hinv : poolInv p) :
    poolInv (p.RemoveExpiredOffers now).1 := by
  have h := rescindFold_inv Prod.fst
    (p.timedOffers.filter (fun e => decide (e.2.expiration ≤ now))) p hinv
  exact h

theorem clear_inv (p : OfferPool) : poolInv p.Clear := by
  unfold OfferPool.Clear poolInv poolWf consistent
  refine ⟨?_, ?_, ?_⟩ <;> intro e he <;> simp at he

theorem removeReservedOffer_inv (p : OfferPool) (h oid : String) (hinv : poolInv p) :
    poolInv (p.RemoveReservedOffer h oid) := by
  cases hH : lookupA p.hostIndex h with
  | none =>
    have h1 : p.RemoveReservedOffer h oid = p := by
      unfold OfferPool.RemoveReservedOffer
      simp [hH]
    rw [h1]
    exact hinv
  | some s =>
    by_cases hms : oid ∈ summaryOfferIds s
    · have h1 : p.RemoveReservedOffer h oid =
          { p with
            hostIndex := setKeyA p.hostIndex h (s.removeOffer oid),
            timedOffers := eraseKeyA p.timedOffers oid } := by
        unfold OfferPool.RemoveReservedOffer
        simp [hH, hms]
      rw [h1]
      refine ⟨?_, ?_, ?_⟩
      · intro e he
        rcases mem_setKeyA _ _ _ _ he with ⟨hmem, _⟩ | heq
        · exact hinv.1 e hmem
        · rw [heq]
          exact summaryIdsWf_removeOffer s oid
            (hinv.1 (h, s) (lookupA_mem _ _ _ hH))
      · intro e he
        rcases (mem_eraseKeyA _ _ _).mp he with ⟨hmem, hne⟩
        have hold := hinv.2.1 e hmem
        unfold summaryHolds at hold ⊢
        rw [lookupA_setKeyA]
        by_cases hh : e.2.hostname = h
        · rw [if_pos hh, hH]
          simp only [Option.isSome_some, if_true]
          refine (mem_ids_removeOffer s oid e.1).mpr ⟨?_, hne⟩
          rw [hh] at hold
          rw [hH] at hold
          exact hold
        · rw [if_neg hh]
          exact hold
      · intro e he x hx
        rcases mem_setKeyA _ _ _ _ he with ⟨hmem, hne⟩ | heq
        · have hT := hinv.2.2 e hmem x hx
          unfold timedAt at hT ⊢
          rw [lookupA_eraseKeyA]
          by_cases hx0 : x = oid
          · have hTh := hinv.2.2 (h, s) (lookupA_mem _ _ _ hH) oid hms
            unfold timedAt at hTh
            rw [hx0] at hT
            cases hLT : lookupA p.timedOffers oid with
            | none =>
              rw [hLT] at hT
              exact hT.elim
            | some td0 =>
              rw [hLT] at hT
              rw [hLT] at hTh
              simp only at hT hTh
              rw [hTh] at hT
              exact absurd hT (fun hc => hne (by rw [hc]))
          · rw [if_neg hx0]
            exact hT
        · rw [heq] at hx ⊢
          have hxm := (mem_ids_removeOffer s oid x).mp hx
          have hT := hinv.2.2 (h, s) (lookupA_mem _ _ _ hH) x hxm.1
          unfold timedAt at hT ⊢
          rw [lookupA_eraseKeyA, if_neg hxm.2]
          exact hT
    · have h1 : p.RemoveReservedOffer h oid = p := by
        unfold OfferPool.RemoveReservedOffer
        simp [hH, hms]
      rw [h1]
      exact hinv

theorem mem_eraseFoldOffers (os : List Offer) (t0 : List (String × TimedOffer))
    (e : String × TimedOffer) :
    e ∈ os.foldl (fun t o => eraseKeyA t o.id) t0 ↔
      e ∈ t0 ∧ e.1 ∉ os.map Offer.id := by
  rw [← List.foldl_map]
  exact mem_eraseFold (os.map Offer.id) t0 e

theorem lookupA_eraseFoldOffers (os : List Offer) (t0 : List (String × TimedOffer))
    (k : String) :
    lookupA (os.foldl (fun t o => eraseKeyA t o.id) t0) k =
      if k ∈ os.map Offer.id then none else lookupA t0 k := by
  rw [← List.foldl_map]
  exact lookupA_eraseFold (os.map Offer.id) t0 k

theorem drain_inv (p : OfferPool) (h : String) (s s2 : HostSummary)
    (drained : List Offer)
    (hL : lookupA p.hostIndex h = some s)
    (hinv : poolInv p)
    (hwf2 : summaryIdsWf s2)
    (hids2 : ∀ x, x ∈ summaryOfferIds s2 ↔
      (x ∈ summaryOfferIds s ∧ x ∉ drained.map Offer.id))
    (hdr : ∀ x ∈ drained.map Offer.id, x ∈ summaryOfferIds s) :
    poolInv
      { p with
        hostIndex := setKeyA p.hostIndex h s2,
        timedOffers := drained.foldl (fun t o => eraseKeyA t o.id) p.timedOffers } := by
  refine ⟨?_, ?_, ?_⟩
  · intro e he
    rcases mem_setKeyA _ _ _ _ he with ⟨hmem, _⟩ | heq
    · exact hinv.1 e hmem
    · rw [heq]
      exact hwf2
  · intro e he
    rcases (mem_eraseFoldOffers _ _ _).mp he with ⟨hmem, hnd⟩
    have hold := hinv.2.1 e hmem
    unfold summaryHolds at hold ⊢
    rw [lookupA_setKeyA]
    by_cases hh : e.2.hostname = h
    · rw [if_pos hh, hL]
      simp only [Option.isSome_some, if_true]
      refine (hids2 e.1).mpr ⟨?_, hnd⟩
      rw [hh, hL] at hold
      exact hold
    · rw [if_neg hh]
      exact hold
  · intro e he x hx
    rcases mem_setKeyA _ _ _ _ he with ⟨hmem, hne⟩ | heq
    · have hT := hinv.2.2 e hmem x hx
      unfold timedAt at hT ⊢
      rw [lookupA_eraseFoldOffers]
      by_cases hxd : x ∈ drained.map Offer.id
      · have hTh := hinv.2.2 (h, s) (lookupA_mem _ _ _ hL) x (hdr x hxd)
        unfold timedAt at hTh
        cases hLT : lookupA p.timedOffers x with
        | none =>
          rw [hLT] at hT
          exact hT.elim
        | some td0 =>
          rw [hLT] at hT hTh
          simp only at hT hTh
          rw [hTh] at hT
          exact absurd hT.symm hne
      · rw [if_neg hxd]
        exact hT
    · rw [heq] at hx ⊢
      have hxm := (hids2 x).mp hx
      have hT := hinv.2.2 (h, s) (lookupA_mem _ _ _ hL) x hxm.1
      unfold timedAt at hT ⊢
      rw [lookupA_eraseFoldOffers, if_neg hxm.2]
      exact hT

theorem claimForLaunch_noneL (p : OfferPool) (h : String) (useReserved : Bool) (cid : Nat)
    (hL : lookupA p.hostIndex h = none) :
    p.ClaimForLaunch h useReserved cid = (p, none) := by
  unfold OfferPool.ClaimForLaunch
  simp [hL]

theorem claimForLaunch_reservedL (p : OfferPool) (h : String) (cid : Nat) (s : HostSummary)
    (hL : lookupA p.hostIndex h = some s) :
    p.ClaimForLaunch h true cid =
      ({ p with
          hostIndex := setKeyA p.hostIndex h { s with reservedOffers := [] },
          timedOffers :=
            s.reservedOffers.foldl (fun t o => eraseKeyA t o.id) p.timedOffers },
        some s.reservedOffers) := by
  unfold OfferPool.ClaimForLaunch
  simp [hL]

theorem claimForLaunch_unresOkL (p : OfferPool) (h : String) (cid : Nat) (s : HostSummary)
    (hL : lookupA p.hostIndex h = some s)
    (hok : s.status = HostStatus.placing ∧ s.claimId = some cid) :
    p.ClaimForLaunch h false cid =
      ({ p with
          hostIndex := setKeyA p.hostIndex h
            { s with unreservedOffers := [], status := .ready, claimId := none },
          timedOffers :=
            s.unreservedOffers.foldl (fun t o => eraseKeyA t o.id) p.timedOffers },
        some s.unreservedOffers) := by
  unfold OfferPool.ClaimForLaunch
  simp only [hL]
  rw [if_neg (by simp), if_pos hok]

theorem claimForLaunch_unresFailL (p : OfferPool) (h : String) (cid : Nat) (s : HostSummary)
    (hL : lookupA p.hostIndex h = some s)
    (hfail : ¬(s.status = HostStatus.placing ∧ s.claimId = some cid)) :
    p.ClaimForLaunch h false cid = (p, none) := by
  unfold OfferPool.ClaimForLaunch
  simp only [hL]
  rw [if_neg (by simp), if_neg hfail]

theorem claimForLaunch_inv (p : OfferPool) (h : String) (useReserved : Bool) (cid : Nat)
    (hinv : poolInv p) : poolInv (p.ClaimForLaunch h useReserved cid).1 := by
  cases hL : lookupA p.hostIndex h with
  | none =>
    rw [claimForLaunch_noneL p h useReserved cid hL]
    exact hinv
  | some s =>
    have hswf : summaryIdsWf s := hinv.1 (h, s) (lookupA_mem _ _ _ hL)
    cases useReserved with
    | true =>
      rw [claimForLaunch_reservedL p h cid s hL]
      refine drain_inv p h s _ s.reservedOffers hL hinv ?_ ?_ ?_
      · intro x hx
        simp only [summaryOfferIds] at hx ⊢
        simp
      · intro x
        constructor
        · intro hx
          simp only [summaryOfferIds, List.map_append, List.mem_append] at hx ⊢
          rcases hx with hx | hx
          · exact ⟨Or.inl hx, hswf x hx⟩
          · simp at hx
        · rintro ⟨hx, hnd⟩
          simp only [summaryOfferIds, List.map_append, List.mem_append] at hx ⊢
          rcases hx with hx | hx
          · exact Or.inl hx
          · exact absurd hx hnd
      · intro x hx
        simp only [summaryOfferIds, List.map_append, List.mem_append]
        exact Or.inr hx
    | false =>
      by_cases hok : s.status = HostStatus.placing ∧ s.claimId = some cid
      · rw [claimForLaunch_unresOkL p h cid s hL hok]
        refine drain_inv p h s _ s.unreservedOffers hL hinv ?_ ?_ ?_
        · intro x hx
          simp only [summaryOfferIds] at hx
          simp at hx
        · intro x
          constructor
          · intro hx
            simp only [summaryOfferIds, List.map_append, List.mem_append] at hx ⊢
            rcases hx with hx | hx
            · simp at hx
            · exact ⟨Or.inr hx, fun hc => hswf x hc hx⟩
          · rintro ⟨hx, hnd⟩
            simp only [summaryOfferIds, List.map_append, List.mem_append] at hx ⊢
            rcases hx with hx | hx
            · exact absurd hx hnd
            · exact Or.inr hx
        · intro x hx
          simp only [summaryOfferIds, List.map_append, List.mem_append]
          exact Or.inl hx
      · rw [claimForLaunch_unresFailL p h cid s hL hok]
        exact hinv

/-- Sequential composition of placement calls: concurrency is modelled as a
linearization, justified by the spec (§5): ClaimForPlace's Ready→Placing
transition is a CAS serialized at each summary, so any interleaving of
atomic claim calls is equivalent to some sequential order. -/
def claimRounds (now : Int) (f : HostFilter) : Nat → OfferPool → OfferPool × List (List Claimed)
  | 0, p => (p, [])
  | n + 1, p =>
    (((claimRounds now f n (p.ClaimForPlace now f).1)).1,
      (p.ClaimForPlace now f).2.1 :: (claimRounds now f n (p.ClaimForPlace now f).1).2)

/-- A Ready summary holding the given unreserved offers. -/
def readyEntry (e : String × List Offer) : String × HostSummary :=
  (e.1,
    { unreservedOffers := e.2, reservedOffers := [], status := .ready,
      claimId := none, placingExpiration := 0 })

/-- The summary of a host just claimed with the given claim id. -/
def placedEntry (now pt : Int) (cid : Nat) (e : String × List Offer) :
    String × HostSummary :=
  (e.1,
    { unreservedOffers := e.2, reservedOffers := [], status := .placing,
      claimId := some cid, placingExpiration := now + pt })

/-- Index shape after claiming each host in order, issuing sequential claim
ids starting at `cid`. -/
def placedIndex (now pt : Int) : Nat → List (String × List Offer) →
    List (String × HostSummary)
  | _, [] => []
  | cid, e :: hs => placedEntry now pt cid e :: placedIndex now pt (cid + 1) hs

/-- Expected per-round results: round i claims the i-th host, receiving all
of its offers under claim id `cid + i`. -/
def roundsSpec : Nat → List (String × List Offer) → List (List Claimed)
  | _, [] => []
  | cid, e :: hs =>
    [{ hostname := e.1, claimId := cid, offers := e.2 }] :: roundsSpec (cid + 1) hs

theorem lookupA_mapVal {β γ : Type} (g : β → γ) (l : List (String × β)) (k : String) :
    lookupA (l.map (fun e => (e.1, g e.2))) k = (lookupA l k).map g := by
  induction l with
  | nil => rfl
  | cons e l ih => by_cases he : e.1 = k <;> simp [he, ih]

theorem lookupA_of_mem_nodup {β : Type} (l : List (String × β)) (k : String) (v : β)
    (hnd : (l.map Prod.fst).Nodup) (hm : (k, v) ∈ l) : lookupA l k = some v := by
  induction l with
  | nil => simp at hm
  | cons e l ih =>
    rcases List.mem_cons.mp hm with he | he
    · rw [← he]
      simp
    · have hk : k ∈ l.map Prod.fst :=
        List.mem_map.mpr ⟨(k, v), he, rfl⟩
      rw [List.map_cons] at hnd
      have hne : e.1 ≠ k := by
        intro hc
        have h1 := (List.nodup_cons.mp hnd).1
        rw [hc] at h1
        exact h1 hk
      simp only [lookupA_cons, if_neg hne]
      exact ih (List.nodup_cons.mp hnd).2 he

theorem tryMatch_placing (s : HostSummary) (now pt : Int) (cid : Nat) (f : HostFilter)
    (hp : s.status = HostStatus.placing) :
    s.tryMatch now pt cid f = (s, none, .mismatchStatus) := by
  unfold HostSummary.tryMatch
  rw [if_pos hp]

theorem tryMatch_ready_matched (s : HostSummary) (now pt : Int) (cid : Nat) (f : HostFilter)
    (hr : s.status = HostStatus.ready)
    (hm : matchHostFilter s.unreservedOffers f = .matched) :
    s.tryMatch now pt cid f =
      ({ s with status := .placing, claimId := some cid, placingExpiration := now + pt },
        some s.unreservedOffers, .matched) := by
  unfold HostSummary.tryMatch
  rw [if_neg (by rw [hr]; intro hc; exact HostStatus.noConfusion hc), hm]

theorem tryMatch_some_char (s : HostSummary) (now pt : Int) (cid : Nat) (f : HostFilter)
    (s' : HostSummary) (offers : List Offer) (r : HostFilterResult)
    (h : s.tryMatch now pt cid f = (s', some offers, r)) :
    s'.status = HostStatus.placing ∧ s'.claimId = some cid ∧
      s'.unreservedOffers = s.unreservedOffers ∧ offers = s.unreservedOffers := by
  unfold HostSummary.tryMatch at h
  by_cases hp : s.status = HostStatus.placing
  · rw [if_pos hp] at h
    simp at h
  · rw [if_neg hp] at h
    cases hm : matchHostFilter s.unreservedOffers f <;> rw [hm] at h <;> simp at h
    obtain ⟨h1, h2, _⟩ := h
    rw [← h1]
    exact ⟨rfl, rfl, rfl, h2.symm⟩

theorem claimWalk_nil (now pt : Int) (f : HostFilter) (cid k : Nat) :
    claimWalk now pt f [] cid k = ([], [], zeroCounts, cid) := rfl

theorem claimWalk_cons_stop (now pt : Int) (f : HostFilter) (h : String)
    (s : HostSummary) (rest : List (String × HostSummary)) (cid k : Nat)
    (hk : f.maxHosts ≤ k) :
    claimWalk now pt f ((h, s) :: rest) cid k = ((h, s) :: rest, [], zeroCounts, cid) := by
  simp only [claimWalk]
  rw [if_pos hk]

theorem claimWalk_cons_matched (now pt : Int) (f : HostFilter) (h : String)
    (s s' : HostSummary) (offers : List Offer) (r : HostFilterResult)
    (rest : List (String × HostSummary)) (cid k : Nat)
    (hk : ¬ f.maxHosts ≤ k)
    (hm : s.tryMatch now pt cid f = (s', some offers, r)) :
    claimWalk now pt f ((h, s) :: rest) cid k =
      ((h, s') :: (claimWalk now pt f rest (cid + 1) (k + 1)).1,
        { hostname := h, claimId := cid, offers := offers } ::
          (claimWalk now pt f rest (cid + 1) (k + 1)).2.1,
        bumpCount (claimWalk now pt f rest (cid + 1) (k + 1)).2.2.1 r,
        (claimWalk now pt f rest (cid + 1) (k + 1)).2.2.2) := by
  simp only [claimWalk]
  rw [if_neg hk, hm]

theorem claimWalk_cons_nomatch (now pt : Int) (f : HostFilter) (h : String)
    (s s' : HostSummary) (r : HostFilterResult)
    (rest : List (String × HostSummary)) (cid k : Nat)
    (hk : ¬ f.maxHosts ≤ k)
    (hm : s.tryMatch now pt cid f = (s', none, r)) :
    claimWalk now pt f ((h, s) :: rest) cid k =
      ((h, s') :: (claimWalk now pt f rest cid k).1,
        (claimWalk now pt f rest cid k).2.1,
        bumpCount (claimWalk now pt f rest cid k).2.2.1 r,
        (claimWalk now pt f rest cid k).2.2.2) := by
  simp only [claimWalk]
  rw [if_neg hk, hm]

theorem claimWalk_stop (now pt : Int) (f : HostFilter) (idx : List (String × HostSummary))
    (cid k : Nat) (hk : f.maxHosts ≤ k) :
    claimWalk now pt f idx cid k = (idx, [], zeroCounts, cid) := by
  cases idx with
  | nil => rfl
  | cons e rest =>
    obtain ⟨h, s⟩ := e
    exact claimWalk_cons_stop now pt f h s rest cid k hk

theorem claimWalk_keys (now pt : Int) (f : HostFilter) :
    ∀ (idx : List (String × HostSummary)) (cid k : Nat),
      keysA (claimWalk now pt f idx cid k).1 = keysA idx := by
  intro idx
  induction idx with
  | nil => intro cid k; rfl
  | cons e rest ih =>
    intro cid k
    obtain ⟨h, s⟩ := e
    by_cases hk : f.maxHosts ≤ k
    · rw [claimWalk_cons_stop now pt f h s rest cid k hk]
    · rcases htm : s.tryMatch now pt cid f with ⟨s', so, r⟩
      cases so with
      | some offers =>
        rw [claimWalk_cons_matched now pt f h s s' offers r rest cid k hk htm]
        have ih2 := ih (cid + 1) (k + 1)
        simp only [keysA] at ih2
        simp [keysA, ih2]
      | none =>
        rw [claimWalk_cons_nomatch now pt f h s s' r rest cid k hk htm]
        have ih2 := ih cid k
        simp only [keysA] at ih2
        simp [keysA, ih2]

theorem claimWalk_claimed (now pt : Int) (f : HostFilter) :
    ∀ (idx : List (String × HostSummary)) (cid k : Nat),
      ∀ c ∈ (claimWalk now pt f idx cid k).2.1,
        ∃ s', (c.hostname, s') ∈ (claimWalk now pt f idx cid k).1 ∧
          s'.status = HostStatus.placing ∧ s'.claimId = some c.claimId ∧
          s'.unreservedOffers = c.offers := by
  intro idx
  induction idx with
  | nil =>
    intro cid k c hc
    simp [claimWalk_nil] at hc
  | cons e rest ih =>
    intro cid k c hc
    obtain ⟨h, s⟩ := e
    by_cases hk : f.maxHosts ≤ k
    · rw [claimWalk_cons_stop now pt f h s rest cid k hk] at hc
      simp at hc
    · rcases htm : s.tryMatch now pt cid f with ⟨s', so, r⟩
      cases so with
      | some offers =>
        rw [claimWalk_cons_matched now pt f h s s' offers r rest cid k hk htm] at hc
        rw [claimWalk_cons_matched now pt f h s s' offers r rest cid k hk htm]
        have hch := tryMatch_some_char s now pt cid f s' offers r htm
        rcases List.mem_cons.mp hc with hc1 | hc1
        · subst hc1
          exact ⟨s', List.mem_cons_self _ _, hch.1, hch.2.1,
            hch.2.2.1.trans hch.2.2.2.symm⟩
        · obtain ⟨s2, hmem, hprops⟩ := ih (cid + 1) (k + 1) c hc1
          exact ⟨s2, List.mem_cons_of_mem _ hmem, hprops⟩
      | none =>
        rw [claimWalk_cons_nomatch now pt f h s s' r rest cid k hk htm] at hc
        rw [claimWalk_cons_nomatch now pt f h s s' r rest cid k hk htm]
        obtain ⟨s2, hmem, hprops⟩ := ih cid k c hc
        exact ⟨s2, List.mem_cons_of_mem _ hmem, hprops⟩

theorem claimWalk_skip_placing (now pt : Int) (f : HostFilter)
    (pre : List (String × HostSummary)) :
    ∀ (rest : List (String × HostSummary)) (cid k : Nat),
      (∀ e ∈ pre, e.2.status = HostStatus.placing) → ¬ f.maxHosts ≤ k →
      claimWalk now pt f (pre ++ rest) cid k =
        (pre ++ (claimWalk now pt f rest cid k).1,
          (claimWalk now pt f rest cid k).2.1,
          { (claimWalk now pt f rest cid k).2.2.1 with
            mismatchStatus :=
              (claimWalk now pt f rest cid k).2.2.1.mismatchStatus + pre.length },
          (claimWalk now pt f rest cid k).2.2.2) := by
  induction pre with
  | nil =>
    intro rest cid k _ _
    rfl
  | cons e pre ih =>
    intro rest cid k hall hk
    obtain ⟨h, s⟩ := e
    have hp : s.status = HostStatus.placing := hall (h, s) (List.mem_cons_self _ _)
    rw [List.cons_append,
      claimWalk_cons_nomatch now pt f h s s HostFilterResult.mismatchStatus
        (pre ++ rest) cid k hk (tryMatch_placing s now pt cid f hp),
      ih rest cid k (fun e2 he2 => hall e2 (List.mem_cons_of_mem _ he2)) hk]
    simp [bumpCount, Nat.add_assoc]

theorem return_noneL (p : OfferPool) (h : String)
    (hL : lookupA p.hostIndex h = none) : p.ReturnUnusedOffers h = p := by
  unfold OfferPool.ReturnUnusedOffers
  simp [hL]

theorem return_placingL (p : OfferPool) (h : String) (s : HostSummary)
    (hL : lookupA p.hostIndex h = some s) (hp : s.status = HostStatus.placing) :
    p.ReturnUnusedOffers h =
      { p with hostIndex :=
          setKeyA p.hostIndex h { s with status := .ready, claimId := none } } := by
  unfold OfferPool.ReturnUnusedOffers
  simp [hL, hp]

theorem return_notPlacingL (p : OfferPool) (h : String) (s : HostSummary)
    (hL : lookupA p.hostIndex h = some s) (hp : ¬ s.status = HostStatus.placing) :
    p.ReturnUnusedOffers h = p := by
  unfold OfferPool.ReturnUnusedOffers
  simp [hL, hp]

theorem resetSummary_true (now : Int) (s : HostSummary)
    (hflag : (resetSummary now s).2 = true) :
    (resetSummary now s).1.status = HostStatus.ready := by
  unfold resetSummary at hflag ⊢
  by_cases hc : s.status = HostStatus.placing ∧ s.placingExpiration ≤ now
  · rw [if_pos hc]
  · rw [if_neg hc] at hflag
    simp at hflag

theorem reset_hostIndexL (p : OfferPool) (now : Int) :
    (p.ResetExpiredPlacingHostSummaries now).1.hostIndex =
      p.hostIndex.map (fun e => (e.1, (resetSummary now e.2).1)) := rfl

theorem reset_listL (p : OfferPool) (now : Int) :
    (p.ResetExpiredPlacingHostSummaries now).2 =
      (p.hostIndex.filter (fun e => (resetSummary now e.2).2)).map Prod.fst := rfl

theorem claimForPlace_hostIndexL (p : OfferPool) (now : Int) (f : HostFilter) :
    (p.ClaimForPlace now f).1.hostIndex =
      (claimWalk now p.placingTimeout f p.hostIndex p.nextClaimId 0).1 := rfl

theorem claimForPlace_resultsL (p : OfferPool) (now : Int) (f : HostFilter) :
    (p.ClaimForPlace now f).2.1 =
      (claimWalk now p.placingTimeout f p.hostIndex p.nextClaimId 0).2.1 := rfl

theorem claimForPlace_countsL (p : OfferPool) (now : Int) (f : HostFilter) :
    (p.ClaimForPlace now f).2.2 =
      (claimWalk now p.placingTimeout f p.hostIndex p.nextClaimId 0).2.2.1 := rfl

theorem claimForPlace_claims (p : OfferPool) (now : Int) (f : HostFilter)
    (hnd : (keysA p.hostIndex).Nodup) :
    ∀ c ∈ (p.ClaimForPlace now f).2.1,
      ((p.ClaimForPlace now f).1.ClaimForLaunch c.hostname false c.claimId).2 =
        some c.offers := by
  intro c hc
  rw [claimForPlace_resultsL] at hc
  obtain ⟨s', hmem, hst, hcid, hoff⟩ :=
    claimWalk_claimed now p.placingTimeout f p.hostIndex p.nextClaimId 0 c hc
  have hnd2 :
      ((claimWalk now p.placingTimeout f p.hostIndex p.nextClaimId 0).1.map
        Prod.fst).Nodup := by
    have hkeys := claimWalk_keys now p.placingTimeout f p.hostIndex p.nextClaimId 0
    unfold keysA at hkeys hnd
    rw [hkeys]
    exact hnd
  have hlk : lookupA ((p.ClaimForPlace now f).1).hostIndex c.hostname = some s' := by
    rw [claimForPlace_hostIndexL]
    exact lookupA_of_mem_nodup _ _ _ hnd2 hmem
  rw [claimForLaunch_unresOkL _ _ _ s' hlk ⟨hst, hcid⟩]
  rw [hoff]

theorem returnThenLaunch (p : OfferPool) (h : String) (cid : Nat) :
    ((p.ReturnUnusedOffers h).ClaimForLaunch h false cid).2 = none := by
  cases hL : lookupA p.hostIndex h with
  | none =>
    rw [return_noneL p h hL, claimForLaunch_noneL p h false cid hL]
  | some s =>
    by_cases hp : s.status = HostStatus.placing
    · rw [return_placingL p h s hL hp]
      have hlk : lookupA
          (setKeyA p.hostIndex h { s with status := .ready, claimId := none }) h =
          some { s with status := .ready, claimId := none } := by
        rw [lookupA_setKeyA, if_pos rfl, hL]
        simp
      rw [claimForLaunch_unresFailL
        { p with hostIndex := setKeyA p.hostIndex h { s with status := .ready, claimId := none } }
        h cid { s with status := .ready, claimId := none } hlk
        (by rintro ⟨hc1, -⟩; exact HostStatus.noConfusion hc1)]
    · rw [return_notPlacingL p h s hL hp,
        claimForLaunch_unresFailL p h cid s hL (fun hc => hp hc.1)]

theorem resetThenLaunch (p : OfferPool) (now : Int) (h : String) (cid : Nat)
    (hnd : (keysA p.hostIndex).Nodup)
    (hh : h ∈ (p.ResetExpiredPlacingHostSummaries now).2) :
    (((p.ResetExpiredPlacingHostSummaries now).1).ClaimForLaunch h false cid).2 = none := by
  rw [reset_listL] at hh
  obtain ⟨e, hef, heq⟩ := List.mem_map.mp hh
  have hmemIdx : e ∈ p.hostIndex := List.mem_of_mem_filter hef
  have hflag : (resetSummary now e.2).2 = true := by
    have := List.of_mem_filter hef
    simpa using this
  have hmem2 : (h, e.2) ∈ p.hostIndex := by
    rw [← heq]
    simpa using hmemIdx
  have hlk0 : lookupA p.hostIndex h = some e.2 := by
    unfold keysA at hnd
    exact lookupA_of_mem_nodup _ _ _ hnd hmem2
  have hmv : ∀ (l : List (String × HostSummary)) (k : String),
      lookupA (l.map (fun e2 => (e2.1, (resetSummary now e2.2).1))) k =
        (lookupA l k).map (fun s => (resetSummary now s).1) := by
    intro l k
    induction l with
    | nil => rfl
    | cons e2 l ih => by_cases he2 : e2.1 = k <;> simp [he2, ih]
  have hlk : lookupA ((p.ResetExpiredPlacingHostSummaries now).1).hostIndex h =
      some (resetSummary now e.2).1 := by
    rw [reset_hostIndexL, hmv, hlk0]
    rfl
  rw [claimForLaunch_unresFailL _ h cid _ hlk ?_]
  rintro ⟨hc1, -⟩
  rw [resetSummary_true now e.2 hflag] at hc1
  exact HostStatus.noConfusion hc1

theorem claimForPlace_eqL (p : OfferPool) (now : Int) (f : HostFilter) :
    p.ClaimForPlace now f =
      ({ p with
          hostIndex := (claimWalk now p.placingTimeout f p.hostIndex p.nextClaimId 0).1,
          nextClaimId :=
            (claimWalk now p.placingTimeout f p.hostIndex p.nextClaimId 0).2.2.2 },
        (claimWalk now p.placingTimeout f p.hostIndex p.nextClaimId 0).2.1,
        (claimWalk now p.placingTimeout f p.hostIndex p.nextClaimId 0).2.2.1) := rfl

theorem claimRounds_zero (now : Int) (f : HostFilter) (p : OfferPool) :
    claimRounds now f 0 p = (p, []) := rfl

theorem claimRounds_succ (now : Int) (f : HostFilter) (n : Nat) (p : OfferPool) :
    claimRounds now f (n + 1) p =
      ((claimRounds now f n (p.ClaimForPlace now f).1).1,
        (p.ClaimForPlace now f).2.1 ::
          (claimRounds now f n (p.ClaimForPlace now f).1).2) := by
  simp only [claimRounds]

theorem placedIndex_placing (now pt : Int) :
    ∀ (hs : List (String × List Offer)) (cid : Nat),
      ∀ e2 ∈ placedIndex now pt cid hs, e2.2.status = HostStatus.placing := by
  intro hs
  induction hs with
  | nil =>
    intro cid e2 he2
    simp [placedIndex] at he2
  | cons e hs ih =>
    intro cid e2 he2
    rw [show placedIndex now pt cid (e :: hs) =
      placedEntry now pt cid e :: placedIndex now pt (cid + 1) hs from rfl] at he2
    rcases List.mem_cons.mp he2 with h1 | h1
    · rw [h1]
      rfl
    · exact ih (cid + 1) e2 h1

theorem placedIndex_length (now pt : Int) :
    ∀ (hs : List (String × List Offer)) (cid : Nat),
      (placedIndex now pt cid hs).length = hs.length := by
  intro hs
  induction hs with
  | nil => intro cid; rfl
  | cons e hs ih =>
    intro cid
    rw [show placedIndex now pt cid (e :: hs) =
      placedEntry now pt cid e :: placedIndex now pt (cid + 1) hs from rfl]
    simp [ih]

theorem claimWalk_round (now pt : Int) (f : HostFilter) (hmax : f.maxHosts = 1)
    (P : List (String × HostSummary)) (hP : ∀ e2 ∈ P, e2.2.status = HostStatus.placing)
    (e : String × List Offer) (hs : List (String × List Offer)) (cid : Nat)
    (hm : matchHostFilter e.2 f = HostFilterResult.matched) :
    claimWalk now pt f (P ++ readyEntry e :: hs.map readyEntry) cid 0 =
      (P ++ placedEntry now pt cid e :: hs.map readyEntry,
        [{ hostname := e.1, claimId := cid, offers := e.2 }],
        { bumpCount zeroCounts .matched with mismatchStatus :=
            (bumpCount zeroCounts .matched).mismatchStatus + P.length },
        cid + 1) := by
  have hk0 : ¬ f.maxHosts ≤ 0 := by rw [hmax]; omega
  have htm : (readyEntry e).2.tryMatch now pt cid f =
      ((placedEntry now pt cid e).2, some e.2, .matched) := by
    rw [tryMatch_ready_matched (readyEntry e).2 now pt cid f rfl hm]
    rfl
  rw [claimWalk_skip_placing now pt f P (readyEntry e :: hs.map readyEntry) cid 0 hP hk0]
  rw [show readyEntry e = (e.1, (readyEntry e).2) from rfl]
  rw [claimWalk_cons_matched now pt f e.1 (readyEntry e).2 (placedEntry now pt cid e).2
    e.2 .matched (hs.map readyEntry) cid 0 hk0 htm]
  rw [claimWalk_stop now pt f (hs.map readyEntry) (cid + 1) (0 + 1) (by omega)]
  rfl

theorem claimRounds_aux (now : Int) (f : HostFilter) (hmax : f.maxHosts = 1) :
    ∀ (hs : List (String × List Offer)) (P : List (String × HostSummary))
      (T : List (String × TimedOffer)) (H : List (String × String))
      (ht pt : Int) (cid : Nat),
      (∀ e2 ∈ P, e2.2.status = HostStatus.placing) →
      (∀ e2 ∈ hs, matchHostFilter e2.2 f = HostFilterResult.matched) →
      claimRounds now f hs.length
          { hostIndex := P ++ hs.map readyEntry, timedOffers := T, heldIndex := H,
            offerHoldTime := ht, placingTimeout := pt, nextClaimId := cid } =
        ({ hostIndex := P ++ placedIndex now pt cid hs, timedOffers := T, heldIndex := H,
            offerHoldTime := ht, placingTimeout := pt, nextClaimId := cid + hs.length },
          roundsSpec cid hs) := by
  intro hs
  induction hs with
  | nil =>
    intro P T H ht pt cid hP hm
    simp [claimRounds_zero, placedIndex, roundsSpec]
  | cons e hs ih =>
    intro P T H ht pt cid hP hm
    rw [List.length_cons, claimRounds_succ]
    have hcfp : OfferPool.ClaimForPlace
        { hostIndex := P ++ (e :: hs).map readyEntry, timedOffers := T, heldIndex := H,
          offerHoldTime := ht, placingTimeout := pt, nextClaimId := cid } now f =
        ({ hostIndex := P ++ placedEntry now pt cid e :: hs.map readyEntry,
            timedOffers := T, heldIndex := H, offerHoldTime := ht, placingTimeout := pt,
            nextClaimId := cid + 1 },
          [{ hostname := e.1, claimId := cid, offers := e.2 }],
          { bumpCount zeroCounts .matched with mismatchStatus :=
              (bumpCount zeroCounts .matched).mismatchStatus + P.length }) := by
      rw [claimForPlace_eqL]
      dsimp only
      rw [List.map_cons]
      rw [claimWalk_round now pt f hmax P hP e hs cid (hm e (List.mem_cons_self _ _))]
    rw [hcfp]
    dsimp only
    have hP2 : ∀ e2 ∈ P ++ [placedEntry now pt cid e],
        e2.2.status = HostStatus.placing := by
      intro e2 he2
      rcases List.mem_append.mp he2 with h1 | h1
      · exact hP e2 h1
      · simp at h1
        rw [h1]
        rfl
    have hidx : P ++ placedEntry now pt cid e :: hs.map readyEntry =
        (P ++ [placedEntry now pt cid e]) ++ hs.map readyEntry := by
      rw [List.append_assoc]
      rfl
    rw [hidx,
      ih (P ++ [placedEntry now pt cid e]) T H ht pt (cid + 1) hP2
        (fun e2 he2 => hm e2 (List.mem_cons_of_mem _ he2))]
    rw [show placedIndex now pt cid (e :: hs) =
      placedEntry now pt cid e :: placedIndex now pt (cid + 1) hs from rfl]
    rw [show roundsSpec cid (e :: hs) =
      [{ hostname := e.1, claimId := cid, offers := e.2 }] :: roundsSpec (cid + 1) hs
      from rfl]
    rw [List.append_assoc]
    have harith : (cid + 1) + hs.length = cid + (hs.length + 1) := by omega
    rw [harith]
    rfl

theorem claimForPlace_allPlacing (p : OfferPool) (now : Int) (f : HostFilter)
    (hmax : f.maxHosts = 1)
    (hall : ∀ e2 ∈ p.hostIndex, e2.2.status = HostStatus.placing) :
    (p.ClaimForPlace now f).2.1 = [] ∧
    (p.ClaimForPlace now f).2.2.mismatchStatus = p.hostIndex.length := by
  have hk0 : ¬ f.maxHosts ≤ 0 := by rw [hmax]; omega
  have hw := claimWalk_skip_placing now p.placingTimeout f p.hostIndex []
    p.nextClaimId 0 hall hk0
  rw [List.append_nil] at hw
  constructor
  · rw [claimForPlace_resultsL, hw]
    simp [claimWalk_nil]
  · rw [claimForPlace_countsL, hw]
    simp [claimWalk_nil, zeroCounts]

theorem roundsSpec_names :
    ∀ (hs : List (String × List Offer)) (cid : Nat),
      ((roundsSpec cid hs).map (fun ms => ms.map (fun c => c.hostname))).flatten =
        hs.map Prod.fst := by
  intro hs
  induction hs with
  | nil => intro cid; rfl
  | cons e hs ih =>
    intro cid
    rw [show roundsSpec cid (e :: hs) =
      [{ hostname := e.1, claimId := cid, offers := e.2 }] :: roundsSpec (cid + 1) hs
      from rfl]
    simp [ih]

theorem claimRounds_full (now : Int) (f : HostFilter) (hmax : f.maxHosts = 1)
    (hs : List (String × List Offer)) (p0 : OfferPool)
    (hp0 : p0.hostIndex = hs.map readyEntry)
    (hm : ∀ e2 ∈ hs, matchHostFilter e2.2 f = HostFilterResult.matched) :
    (claimRounds now f hs.length p0).2 = roundsSpec p0.nextClaimId hs ∧
    (claimRounds now f hs.length p0).1.hostIndex =
      placedIndex now p0.placingTimeout p0.nextClaimId hs ∧
    ((claimRounds now f hs.length p0).1.ClaimForPlace now f).2.1 = [] ∧
    ((claimRounds now f hs.length p0).1.ClaimForPlace now f).2.2.mismatchStatus =
      hs.length := by
  have hpool : p0 =
      { hostIndex := [] ++ hs.map readyEntry,
        timedOffers := p0.timedOffers, heldIndex := p0.heldIndex,
        offerHoldTime := p0.offerHoldTime, placingTimeout := p0.placingTimeout,
        nextClaimId := p0.nextClaimId } := by
    rw [List.nil_append, ← hp0]
  have haux := claimRounds_aux now f hmax hs [] p0.timedOffers p0.heldIndex
    p0.offerHoldTime p0.placingTimeout p0.nextClaimId
    (fun e2 he2 => absurd he2 (List.not_mem_nil e2)) hm
  rw [← hpool] at haux
  have hidx : (claimRounds now f hs.length p0).1.hostIndex =
      placedIndex now p0.placingTimeout p0.nextClaimId hs := by
    rw [haux]
    exact List.nil_append _
  have hall : ∀ e2 ∈ (claimRounds now f hs.length p0).1.hostIndex,
      e2.2.status = HostStatus.placing := by
    intro e2 he2
    rw [hidx] at he2
    exact placedIndex_placing now p0.placingTimeout hs p0.nextClaimId e2 he2
  refine ⟨?_, hidx, ?_, ?_⟩
  · rw [haux]
  · exact (claimForPlace_allPlacing (claimRounds now f hs.length p0).1 now f hmax hall).1
  · rw [(claimForPlace_allPlacing (claimRounds now f hs.length p0).1 now f hmax hall).2]
    rw [hidx, placedIndex_length]

end HostMgr

/-! ## Claim theorems for the embedded (in-source) code paths -/

/-- C9: For every HostOffers value, GetAvailablePortCount returns the sum over
all resources named "ports" in its offer of (range End − range Begin + 1)
across their port ranges — both endpoints counted inclusively — and resources
with any other name contribute nothing; for an offer with no "ports" resource
it returns 0.  (Stated for well-formed uint64 ranges whose total does not
overflow, as the arithmetic runs in uint64.) -/
theorem claim_C9 (h : Placement.HostOffers)
    (hwf : ∀ r ∈ h.getResources, ∀ pr ∈ r.ranges,
      pr.rangeBegin ≤ pr.rangeEnd ∧ pr.rangeEnd < Placement.u64)
    (htot : Placement.claimedPortCount h < Placement.u64) :
    h.getAvailablePortCount = Placement.claimedPortCount h ∧
    ((∀ r ∈ h.getResources, r.name ≠ "ports") → h.getAvailablePortCount = 0) := by
  have hmain : h.getAvailablePortCount = Placement.claimedPortCount h := by
    have := Placement.resourceFold_eq_sum h.getResources 0 hwf
      (by simpa [Placement.claimedPortCount] using htot)
    simpa [Placement.HostOffers.getAvailablePortCount, Placement.claimedPortCount] using this
  refine ⟨hmain, fun hnone => ?_⟩
  rw [hmain]
  have hf : h.getResources.filter (fun r => decide (r.name = "ports")) = [] := by
    rw [List.filter_eq_nil_iff]
    intro r hr
    simpa using hnone r hr
  simp [Placement.claimedPortCount, hf]

theorem claim_C9_witness :
    (Placement.HostOffers.mk (some ⟨[⟨"ports", [⟨1, 3⟩, ⟨10, 10⟩]⟩, ⟨"cpus", [⟨0, 5⟩]⟩]⟩)).getAvailablePortCount
      = Placement.claimedPortCount
        (Placement.HostOffers.mk (some ⟨[⟨"ports", [⟨1, 3⟩, ⟨10, 10⟩]⟩, ⟨"cpus", [⟨0, 5⟩]⟩]⟩)) :=
  (claim_C9 (Placement.HostOffers.mk (some ⟨[⟨"ports", [⟨1, 3⟩, ⟨10, 10⟩]⟩, ⟨"cpus", [⟨0, 5⟩]⟩]⟩))
    (by decide) (by decide)).1

/-- C8: KillTask and ShutdownMesosExecutor, when invoked with a rate limiter
that has no available tokens, fail with a ResourceExhausted error and do not
issue the KillTasks or ShutdownExecutors RPC; when the limiter is nil or has
tokens, the RPC is issued. -/
theorem claim_C8 :
    (∀ resp, JobmgrTask.KillTask (some false) resp =
      (false, some JobmgrTask.TaskCtrlError.resourceExhausted)) ∧
    (∀ resp, JobmgrTask.ShutdownMesosExecutor (some false) resp =
      (false, some JobmgrTask.TaskCtrlError.resourceExhausted)) ∧
    (∀ resp, (JobmgrTask.KillTask none resp).1 = true) ∧
    (∀ resp, (JobmgrTask.KillTask (some true) resp).1 = true) ∧
    (∀ resp, (JobmgrTask.ShutdownMesosExecutor none resp).1 = true) ∧
    (∀ resp, (JobmgrTask.ShutdownMesosExecutor (some true) resp).1 = true) := by
  refine ⟨fun _ => rfl, fun _ => rfl, ?_, ?_, ?_, ?_⟩ <;>
    rintro ⟨i, k⟩ <;> cases i <;> cases k <;> rfl

/-- C10: ProcessStatusUpdate returns nil (success) for a status update
identified as an orphan task even when every one of the 3 attempts to kill
the orphan task returns an error; the kill failure is never propagated to
the caller, and no task-runtime update is performed for the orphan. -/
theorem claim_C10 (env : Event.StatusUpdateEnv)
    (hc : env.convertOk = true)
    (ho : env.orphanCheck = some true)
    (hfail : ∀ i, env.killOk i = false) :
    Event.processStatusUpdate env = Event.PSUResult.okOrphanSkipped 3 ∧
    (Event.processStatusUpdate env).returnsError = false ∧
    (Event.processStatusUpdate env).updatesTaskRuntime = false := by
  have step : ∀ i n, env.killOk i = false →
      Event.orphanKillLoop env.killOk i (n + 1) =
        Event.orphanKillLoop env.killOk (i + 1) n := by
    intro i n hi
    show (if env.killOk i then (i + 1, true)
      else Event.orphanKillLoop env.killOk (i + 1) n) = _
    rw [hi]
    simp
  have hloop : Event.orphanKillLoop env.killOk 0 Event.numOrphanTaskKillAttempts
      = (3, false) := by
    show Event.orphanKillLoop env.killOk 0 (2 + 1) = (3, false)
    rw [step 0 2 (hfail 0)]
    show Event.orphanKillLoop env.killOk 1 (1 + 1) = (3, false)
    rw [step 1 1 (hfail 1)]
    show Event.orphanKillLoop env.killOk 2 (0 + 1) = (3, false)
    rw [step 2 0 (hfail 2)]
    rfl
  have hres : Event.processStatusUpdate env = Event.PSUResult.okOrphanSkipped 3 := by
    unfold Event.processStatusUpdate
    rw [hc, ho]
    simp [hloop]
  exact ⟨hres, by rw [hres]; rfl, by rw [hres]; rfl⟩

theorem claim_C10_witness :
    Event.processStatusUpdate ⟨true, some true, fun _ => false⟩ =
      Event.PSUResult.okOrphanSkipped 3 :=
  (claim_C10 ⟨true, some true, fun _ => false⟩ rfl rfl (fun _ => rfl)).1

/-! ## Claim theorems for the spec-modelled offer pool -/

/-- A concrete unreserved offer used by concrete instances. -/
def woffer1 : HostMgr.Offer :=
  { id := "o1"
    hostname := "h1"
    reserved := false
    resources := { cpu := 1, mem := 1, disk := 1, gpu := 0 }
    numPorts := 0
    unavailabilityStart := none }

/-- A concrete one-host pool holding `woffer1`, satisfying the pool
invariant. -/
def wpoolC7 : HostMgr.OfferPool :=
  { hostIndex := [("h1",
      { unreservedOffers := [woffer1]
        reservedOffers := []
        status := .ready
        claimId := none
        placingExpiration := 0 })]
    timedOffers := [("o1", { hostname := "h1", expiration := 60 })]
    heldIndex := []
    offerHoldTime := 60
    placingTimeout := 120
    nextClaimId := 0 }

/-- C5: matchHostFilter returns MISMATCH_GPU whenever the summed unreserved
resources of the candidate host have gpu > 0 while the filter's
ResourceConstraint.Minimum.gpu equals 0, even when the host's cpu and mem
satisfy the filter's minima; the GPU-exclusivity check is evaluated only
after the resource-minimum and port-count checks pass (a failing earlier
check yields INSUFFICIENT_OFFER_RESOURCES instead). -/
theorem claim_C5 (offers : List HostMgr.Offer) (f : HostMgr.HostFilter)
    (hne : offers ≠ [])
    (hmin : ¬((HostMgr.sumResources offers).cpu < f.resourceConstraint.minimum.cpu ∨
      (HostMgr.sumResources offers).mem < f.resourceConstraint.minimum.mem ∨
      (HostMgr.sumResources offers).disk < f.resourceConstraint.minimum.disk ∨
      (HostMgr.sumResources offers).gpu < f.resourceConstraint.minimum.gpu))
    (hports : ¬(HostMgr.sumPorts offers < f.resourceConstraint.numPorts))
    (hgpu : 0 < (HostMgr.sumResources offers).gpu)
    (hmin0 : f.resourceConstraint.minimum.gpu = 0) :
    HostMgr.matchHostFilter offers f = HostMgr.HostFilterResult.mismatchGpu ∧
    (∀ (offers2 : List HostMgr.Offer) (f2 : HostMgr.HostFilter), offers2 ≠ [] →
      ((HostMgr.sumResources offers2).cpu < f2.resourceConstraint.minimum.cpu ∨
        (HostMgr.sumResources offers2).mem < f2.resourceConstraint.minimum.mem ∨
        (HostMgr.sumResources offers2).disk < f2.resourceConstraint.minimum.disk ∨
        (HostMgr.sumResources offers2).gpu < f2.resourceConstraint.minimum.gpu) →
      HostMgr.matchHostFilter offers2 f2 = HostMgr.HostFilterResult.insufficientResources) ∧
    (∀ (offers2 : List HostMgr.Offer) (f2 : HostMgr.HostFilter), offers2 ≠ [] →
      ¬((HostMgr.sumResources offers2).cpu < f2.resourceConstraint.minimum.cpu ∨
        (HostMgr.sumResources offers2).mem < f2.resourceConstraint.minimum.mem ∨
        (HostMgr.sumResources offers2).disk < f2.resourceConstraint.minimum.disk ∨
        (HostMgr.sumResources offers2).gpu < f2.resourceConstraint.minimum.gpu) →
      HostMgr.sumPorts offers2 < f2.resourceConstraint.numPorts →
      HostMgr.matchHostFilter offers2 f2 = HostMgr.HostFilterResult.insufficientResources) := by
  have hie : ∀ l : List HostMgr.Offer, l ≠ [] → l.isEmpty = false := by
    intro l hl
    cases l with
    | nil => exact absurd rfl hl
    | cons a t => rfl
  refine ⟨?_, ?_, ?_⟩
  · simp only [HostMgr.matchHostFilter, hie offers hne, Bool.false_eq_true, if_false]
    rw [if_neg hmin, if_neg hports, if_pos ⟨hgpu, hmin0⟩]
  · intro offers2 f2 hne2 hmin2
    simp only [HostMgr.matchHostFilter, hie offers2 hne2, Bool.false_eq_true, if_false]
    rw [if_pos hmin2]
  · intro offers2 f2 hne2 hmin2 hports2
    simp only [HostMgr.matchHostFilter, hie offers2 hne2, Bool.false_eq_true, if_false]
    rw [if_neg hmin2, if_pos hports2]

theorem claim_C5_witness :
    HostMgr.matchHostFilter
      [{ id := "o1", hostname := "h1", reserved := false,
         resources := { cpu := 4, mem := 4, disk := 0, gpu := 4 }, numPorts := 0,
         unavailabilityStart := none }]
      { maxHosts := 1,
        resourceConstraint :=
          { minimum := { cpu := 1, mem := 1, disk := 0, gpu := 0 }, numPorts := 0 },
        schedulingConstraint := none } = HostMgr.HostFilterResult.mismatchGpu :=
  (claim_C5
    [{ id := "o1", hostname := "h1", reserved := false,
       resources := { cpu := 4, mem := 4, disk := 0, gpu := 4 }, numPorts := 0,
       unavailabilityStart := none }]
    { maxHosts := 1,
      resourceConstraint :=
        { minimum := { cpu := 1, mem := 1, disk := 0, gpu := 0 }, numPorts := 0 },
      schedulingConstraint := none }
    (by decide) (by decide) (by decide) (by decide) (by decide)).1

/-- C6: For every task t, GetHostHeldForTask(t) returns the hostname passed
to the most recent HoldForTasks call whose task list included t (so a hold
on t points to at most one hostname, last writer wins), holds on other
tasks are untouched, and the query returns empty after ReleaseHoldForTasks
for t. -/
theorem claim_C6 :
    (∀ (p p' : HostMgr.OfferPool) (h : String) (ts : List String),
      p.HoldForTasks h ts = some p' →
      (∀ t ∈ ts, p'.GetHostHeldForTask t = h) ∧
      (∀ t, t ∉ ts → p'.GetHostHeldForTask t = p.GetHostHeldForTask t)) ∧
    (∀ (p p' : HostMgr.OfferPool) (h : String) (ts : List String),
      p.ReleaseHoldForTasks h ts = some p' →
      ∀ t ∈ ts, p'.GetHostHeldForTask t = "") := by
  constructor
  · intro p p' h ts hh
    unfold HostMgr.OfferPool.HoldForTasks at hh
    cases hL : lookupA p.hostIndex h with
    | none => simp [hL] at hh
    | some s =>
      simp only [hL, Option.some.injEq] at hh
      subst hh
      constructor
      · intro t ht
        simp [HostMgr.OfferPool.GetHostHeldForTask, HostMgr.lookupA_holdFold, ht]
      · intro t ht
        simp [HostMgr.OfferPool.GetHostHeldForTask, HostMgr.lookupA_holdFold, ht]
  · intro p p' h ts hh
    unfold HostMgr.OfferPool.ReleaseHoldForTasks at hh
    cases hL : lookupA p.hostIndex h with
    | none => simp [hL] at hh
    | some s =>
      simp only [hL, Option.some.injEq] at hh
      subst hh
      intro t ht
      have hfold : ∀ (idx : List (String × String)) (ts2 : List String) (t2 : String),
          lookupA (ts2.foldl (fun i x => eraseKeyA i x) idx) t2 =
            if t2 ∈ ts2 then none else lookupA idx t2 :=
        fun idx ts2 t2 => HostMgr.lookupA_eraseFold ts2 idx t2
      simp [HostMgr.OfferPool.GetHostHeldForTask, hfold, ht]

theorem claim_C6_witness :
    HostMgr.OfferPool.GetHostHeldForTask
      { hostIndex := [("B", HostMgr.emptySummary)], timedOffers := [],
        heldIndex := [("t1", "B")], offerHoldTime := 1, placingTimeout := 1,
        nextClaimId := 0 } "t1" = "B" :=
  ((claim_C6.1
    { hostIndex := [("B", HostMgr.emptySummary)], timedOffers := [],
      heldIndex := [("t1", "A")], offerHoldTime := 1, placingTimeout := 1,
      nextClaimId := 0 }
    { hostIndex := [("B", HostMgr.emptySummary)], timedOffers := [],
      heldIndex := [("t1", "B")], offerHoldTime := 1, placingTimeout := 1,
      nextClaimId := 0 }
    "B" ["t1"] (by decide)).1 "t1" (by decide))

/-- C1: the set of offer-ids in timedOffers equals the set of offer-ids held
across all host summaries' reserved and unreserved offer maps, with each
timedOffers entry naming the hostname of the summary holding that offer
(`consistent`, together with the map well-formedness `poolWf` it relies on);
every operation — AddOffers (for batches of offers with unique ids, as the
master guarantees), RescindOffer, DeclineOffers, ClaimForLaunch,
RemoveExpiredOffers, RemoveReservedOffer, Clear — preserves this
correspondence. -/
theorem claim_C1 (p : HostMgr.OfferPool) (hinv : HostMgr.poolInv p) :
    (∀ (now : Int) (offers : List HostMgr.Offer),
      (∀ o ∈ offers, HostMgr.offerFreshFor p o) →
      (∀ o ∈ offers, ∀ o2 ∈ offers, o.id = o2.id → o.hostname = o2.hostname) →
      HostMgr.poolInv (p.AddOffers now offers).1) ∧
    (∀ oid, HostMgr.poolInv (p.RescindOffer oid).1) ∧
    (∀ oids, HostMgr.poolInv (p.DeclineOffers oids)) ∧
    (∀ (h : String) (useReserved : Bool) (cid : Nat),
      HostMgr.poolInv (p.ClaimForLaunch h useReserved cid).1) ∧
    (∀ now : Int, HostMgr.poolInv (p.RemoveExpiredOffers now).1) ∧
    (∀ h oid : String, HostMgr.poolInv (p.RemoveReservedOffer h oid)) ∧
    HostMgr.poolInv p.Clear := by
  refine ⟨?_, fun oid => HostMgr.rescindOffer_inv p oid hinv,
    fun oids => HostMgr.declineOffers_inv p oids hinv,
    fun h u cid => HostMgr.claimForLaunch_inv p h u cid hinv,
    fun now => HostMgr.removeExpired_inv p now hinv,
    fun h oid => HostMgr.removeReservedOffer_inv p h oid hinv,
    HostMgr.clear_inv p⟩
  intro now offers hfresh hpair
  unfold HostMgr.OfferPool.AddOffers
  exact HostMgr.addOffers_inv_aux now offers p [] 0 hinv hfresh hpair

theorem claim_C1_witness : HostMgr.poolInv (HostMgr.OfferPool.Clear wpoolC7) :=
  (claim_C1 wpoolC7 (by decide)).2.2.2.2.2.2

/-- C7: RescindOffer(offerId) removes the offer from timedOffers and from
its host summary and returns true when the offer is present; calling it
with an offer-id not currently in the pool returns false and leaves the
pool state unchanged — in particular a second RescindOffer for the same id
returns false. -/
theorem claim_C7 (p : HostMgr.OfferPool) (oid : String) (hinv : HostMgr.poolInv p) :
    (lookupA p.timedOffers oid = none → p.RescindOffer oid = (p, false)) ∧
    (∀ td, lookupA p.timedOffers oid = some td →
      (p.RescindOffer oid).2 = true ∧
      lookupA ((p.RescindOffer oid).1).timedOffers oid = none ∧
      (∀ h, ¬ HostMgr.summaryHolds (p.RescindOffer oid).1 h oid)) ∧
    ((p.RescindOffer oid).1.RescindOffer oid).2 = false := by
  have hfalse : ∀ (q : HostMgr.OfferPool), lookupA q.timedOffers oid = none →
      q.RescindOffer oid = (q, false) := by
    intro q hq
    unfold HostMgr.OfferPool.RescindOffer
    simp [hq]
  have hgone : ∀ td, lookupA p.timedOffers oid = some td →
      lookupA ((p.RescindOffer oid).1).timedOffers oid = none := by
    intro td htd
    unfold HostMgr.OfferPool.RescindOffer
    simp only [htd]
    rw [HostMgr.timedOffers_removeFromSummary]
    simp [lookupA_eraseKeyA]
  refine ⟨hfalse p, ?_, ?_⟩
  · intro td htd
    refine ⟨?_, hgone td htd, ?_⟩
    · unfold HostMgr.OfferPool.RescindOffer
      simp [htd]
    · intro h hold
      have hti : ((p.RescindOffer oid).1).hostIndex =
          match lookupA p.hostIndex td.hostname with
          | none => p.hostIndex
          | some s => setKeyA p.hostIndex td.hostname (s.removeOffer oid) := by
        unfold HostMgr.OfferPool.RescindOffer
        simp only [htd]
        rw [HostMgr.hostIndex_removeFromSummary]
      unfold HostMgr.summaryHolds at hold
      cases hH : lookupA p.hostIndex td.hostname with
      | none =>
        rw [hti] at hold
        simp only [hH] at hold
        cases hL : lookupA p.hostIndex h with
        | none => simp only [hL] at hold
        | some s =>
          simp only [hL] at hold
          have hmem := HostMgr.lookupA_mem p.hostIndex h s hL
          have hT := hinv.2.2 (h, s) hmem oid hold
          unfold HostMgr.timedAt at hT
          rw [htd] at hT
          rw [hT] at hH
          rw [hH] at hL
          exact Option.noConfusion hL
      | some s0 =>
        rw [hti] at hold
        simp only [hH] at hold
        rw [lookupA_setKeyA] at hold
        by_cases hhh : h = td.hostname
        · rw [if_pos hhh] at hold
          rw [hH] at hold
          simp only [Option.isSome_some, if_true] at hold
          have hmm := (HostMgr.mem_ids_removeOffer s0 oid oid).mp hold
          exact hmm.2 rfl
        · rw [if_neg hhh] at hold
          cases hL : lookupA p.hostIndex h with
          | none => simp only [hL] at hold
          | some s =>
            simp only [hL] at hold
            have hmem := HostMgr.lookupA_mem p.hostIndex h s hL
            have hT := hinv.2.2 (h, s) hmem oid hold
            unfold HostMgr.timedAt at hT
            rw [htd] at hT
            exact hhh hT.symm
  · by_cases hn : lookupA p.timedOffers oid = none
    · have h1 := hfalse p hn
      have h2 : ((p, false) : HostMgr.OfferPool × Bool).1 = p := rfl
      rw [h1, h2, h1]
    · obtain ⟨td, htd⟩ := Option.ne_none_iff_exists'.mp hn
      rw [hfalse _ (hgone td htd)]

theorem claim_C7_witness :
    ((HostMgr.OfferPool.RescindOffer wpoolC7 "o1").1.RescindOffer "o1").2 = false :=
  (claim_C7 wpoolC7 "o1" (by decide)).2.2

/-- C2: For every offer carrying an unavailability window whose start time
is at most 3 hours after now (including a start exactly at now or in the
past), AddOffers declines the offer synchronously and does not store it:
the pool is unchanged by that offer; an offer whose unavailability starts
more than 3 hours away (or carries none) is accepted: it is recorded in
timedOffers with expiration now + offerHoldTime and stored in its host
summary. -/
theorem claim_C2 (p : HostMgr.OfferPool) (now : Int) (offers : List HostMgr.Offer) :
    ((p.AddOffers now offers).1 =
      (p.AddOffers now (offers.filter (fun o => !(o.rejectedForMaintenance now)))).1) ∧
    ((p.AddOffers now offers).2.1 =
      (offers.filter (fun o => o.rejectedForMaintenance now)).map HostMgr.Offer.id) ∧
    ((p.AddOffers now offers).2.2 =
      (offers.filter (fun o => !(o.rejectedForMaintenance now))).length) ∧
    (∀ o : HostMgr.Offer, o.rejectedForMaintenance now = false →
      (p.AddOffers now [o]).1 = p.acceptOffer now o ∧
      lookupA ((p.acceptOffer now o).timedOffers) o.id =
        some { hostname := o.hostname, expiration := now + p.offerHoldTime } ∧
      HostMgr.summaryHolds (p.acceptOffer now o) o.hostname o.id) ∧
    (∀ (o : HostMgr.Offer) (st : Int), o.unavailabilityStart = some st →
      (o.rejectedForMaintenance now = true ↔
        st ≤ now + HostMgr.unavailableOfferLookahead)) := by
  refine ⟨?_, ?_, ?_, ?_, ?_⟩
  · unfold HostMgr.OfferPool.AddOffers
    rw [HostMgr.addOffers_foldl, HostMgr.addOffers_foldl]
    have hidem : (offers.filter (fun o => !(o.rejectedForMaintenance now))).filter
        (fun o => !(o.rejectedForMaintenance now)) =
        offers.filter (fun o => !(o.rejectedForMaintenance now)) :=
      List.filter_eq_self.mpr (fun a ha => (List.mem_filter.mp ha).2)
    rw [hidem]
  · unfold HostMgr.OfferPool.AddOffers
    rw [HostMgr.addOffers_foldl]
    simp
  · unfold HostMgr.OfferPool.AddOffers
    rw [HostMgr.addOffers_foldl]
    simp
  · intro o ho
    refine ⟨?_, ?_, ?_⟩
    · unfold HostMgr.OfferPool.AddOffers
      simp [ho]
    · unfold HostMgr.OfferPool.acceptOffer
      simp [lookupA_upsertA]
    · unfold HostMgr.summaryHolds HostMgr.OfferPool.acceptOffer
      simp only [lookupA_upsertA, if_pos rfl]
      exact (HostMgr.mem_ids_addOffer _ o o.id).mpr (Or.inl rfl)
  · intro o st hst
    simp [HostMgr.Offer.rejectedForMaintenance, hst]

theorem claim_C2_witness :
    (HostMgr.OfferPool.AddOffers (HostMgr.OfferPool.empty 60 120) 0
      [{ id := "o1", hostname := "h1", reserved := false,
         resources := { cpu := 1, mem := 1, disk := 1, gpu := 0 }, numPorts := 0,
         unavailabilityStart := some 0 }]).2.1 = ["o1"] := by
  rw [(claim_C2 (HostMgr.OfferPool.empty 60 120) 0
    [{ id := "o1", hostname := "h1", reserved := false,
       resources := { cpu := 1, mem := 1, disk := 1, gpu := 0 }, numPorts := 0,
       unavailabilityStart := some 0 }]).2.1]
  rfl

/-- C3: ClaimForLaunch with useReserved = false succeeds and returns exactly
the host's unreserved offers iff the host is known, its status is Placing,
and the requested claim id matches the stored one; the claim id stored is
the one issued by the last successful ClaimForPlace, so every claim handed
out by ClaimForPlace launches successfully.  In every other case — unknown
hostname, a ReturnUnusedOffers in between (which resets status and claim
id), or the placing-expiry sweep having reset the host — the call fails
with no offers and leaves the pool unchanged. -/
theorem claim_C3 (p : HostMgr.OfferPool)
    (hnd : (keysA p.hostIndex).Nodup) :
    (∀ (h : String) (cid : Nat), lookupA p.hostIndex h = none →
      p.ClaimForLaunch h false cid = (p, none)) ∧
    (∀ (h : String) (cid : Nat) (offers : List HostMgr.Offer),
      (p.ClaimForLaunch h false cid).2 = some offers ↔
        ∃ s : HostMgr.HostSummary, lookupA p.hostIndex h = some s ∧
          s.status = HostMgr.HostStatus.placing ∧ s.claimId = some cid ∧
          offers = s.unreservedOffers) ∧
    (∀ (h : String) (cid : Nat), (p.ClaimForLaunch h false cid).2 = none →
      (p.ClaimForLaunch h false cid).1 = p) ∧
    (∀ (now : Int) (f : HostMgr.HostFilter),
      ∀ c ∈ (p.ClaimForPlace now f).2.1,
        ((p.ClaimForPlace now f).1.ClaimForLaunch c.hostname false c.claimId).2 =
          some c.offers) ∧
    (∀ (h : String) (cid : Nat),
      ((p.ReturnUnusedOffers h).ClaimForLaunch h false cid).2 = none) ∧
    (∀ (now : Int) (h : String) (cid : Nat),
      h ∈ (p.ResetExpiredPlacingHostSummaries now).2 →
      (((p.ResetExpiredPlacingHostSummaries now).1).ClaimForLaunch h false cid).2 =
        none) := by
  refine ⟨?_, ?_, ?_, ?_, ?_, ?_⟩
  · intro h cid hL
    exact HostMgr.claimForLaunch_noneL p h false cid hL
  · intro h cid offers
    constructor
    · intro hs2
      cases hL : lookupA p.hostIndex h with
      | none =>
        rw [HostMgr.claimForLaunch_noneL p h false cid hL] at hs2
        exact absurd hs2 (by simp)
      | some s =>
        by_cases hok : s.status = HostMgr.HostStatus.placing ∧ s.claimId = some cid
        · rw [HostMgr.claimForLaunch_unresOkL p h cid s hL hok] at hs2
          simp only [Option.some.injEq] at hs2
          exact ⟨s, rfl, hok.1, hok.2, hs2.symm⟩
        · rw [HostMgr.claimForLaunch_unresFailL p h cid s hL hok] at hs2
          exact absurd hs2 (by simp)
    · rintro ⟨s, hL, hst, hcid, rfl⟩
      rw [HostMgr.claimForLaunch_unresOkL p h cid s hL ⟨hst, hcid⟩]
  · intro h cid hn
    cases hL : lookupA p.hostIndex h with
    | none =>
      rw [HostMgr.claimForLaunch_noneL p h false cid hL]
    | some s =>
      by_cases hok : s.status = HostMgr.HostStatus.placing ∧ s.claimId = some cid
      · rw [HostMgr.claimForLaunch_unresOkL p h cid s hL hok] at hn
        exact absurd hn (by simp)
      · rw [HostMgr.claimForLaunch_unresFailL p h cid s hL hok]
  · intro now f
    exact HostMgr.claimForPlace_claims p now f hnd
  · intro h cid
    exact HostMgr.returnThenLaunch p h cid
  · intro now h cid hh
    exact HostMgr.resetThenLaunch p now h cid hnd hh

theorem claim_C3_witness :
    HostMgr.OfferPool.ClaimForLaunch wpoolC7 "nohost" false 0 = (wpoolC7, none) :=
  (claim_C3 wpoolC7 (by decide)).1 "nohost" 0 (by decide)

/-- A second offer on a second host, for the two-host claim fixture. -/
def woffer2 : HostMgr.Offer :=
  { id := "o2"
    hostname := "h2"
    reserved := false
    resources := { cpu := 1, mem := 1, disk := 1, gpu := 0 }
    numPorts := 0
    unavailabilityStart := none }

/-- A MaxHosts = 1 filter with zero minima and no scheduling constraint. -/
def wfilterC4 : HostMgr.HostFilter :=
  { maxHosts := 1
    resourceConstraint :=
      { minimum := { cpu := 0, mem := 0, disk := 0, gpu := 0 }
        numPorts := 0 }
    schedulingConstraint := none }

/-- Two hosts, each holding one unreserved offer. -/
def whostsC4 : List (String × List HostMgr.Offer) :=
  [("h1", [woffer1]), ("h2", [woffer2])]

/-- A pool of the two `whostsC4` hosts, both Ready. -/
def wpoolC4 : HostMgr.OfferPool :=
  { hostIndex := whostsC4.map HostMgr.readyEntry
    timedOffers := []
    heldIndex := []
    offerHoldTime := 60
    placingTimeout := 120
    nextClaimId := 0 }

/-- C4: n concurrent ClaimForPlace calls with MaxHosts = 1 against a pool
of n Ready hosts, each holding offers that match the filter, linearized as
n sequential rounds per the CAS serialization of spec section 5: every
round claims exactly one host receiving all of that host's offers under a
fresh claim id (`roundsSpec`), no hostname is handed to two rounds, and a
further ClaimForPlace matches zero hosts while tallying all n hosts under
MISMATCH_STATUS. -/
theorem claim_C4 (now : Int) (f : HostMgr.HostFilter)
    (hs : List (String × List HostMgr.Offer)) (p0 : HostMgr.OfferPool)
    (hmax : f.maxHosts = 1)
    (hp0 : p0.hostIndex = hs.map HostMgr.readyEntry)
    (hnd : (hs.map Prod.fst).Nodup)
    (hm : ∀ e2 ∈ hs,
      HostMgr.matchHostFilter e2.2 f = HostMgr.HostFilterResult.matched) :
    ((HostMgr.claimRounds now f hs.length p0).2 =
      HostMgr.roundsSpec p0.nextClaimId hs) ∧
    (((HostMgr.claimRounds now f hs.length p0).2.map
      (fun ms => ms.map (fun c => c.hostname))).flatten.Nodup) ∧
    (((HostMgr.claimRounds now f hs.length p0).1.ClaimForPlace now f).2.1 = []) ∧
    (((HostMgr.claimRounds now f hs.length p0).1.ClaimForPlace
      now f).2.2.mismatchStatus = hs.length) := by
  obtain ⟨h1, -, h3, h4⟩ := HostMgr.claimRounds_full now f hmax hs p0 hp0 hm
  refine ⟨h1, ?_, h3, h4⟩
  rw [h1, HostMgr.roundsSpec_names hs p0.nextClaimId]
  exact hnd

theorem claim_C4_witness :
    (HostMgr.claimRounds 0 wfilterC4 whostsC4.length wpoolC4).2 =
      HostMgr.roundsSpec wpoolC4.nextClaimId whostsC4 :=
  (claim_C4 0 wfilterC4 whostsC4 wpoolC4 rfl rfl (by decide) (by decide)).1

end Peloton

